import Mathlib

/-!
json-log-viewer: the filter input (pill input) and the filtering state

Shallow embedding of

* `internal/pkg/widgets/pillinput.go`  (`PillInputModel`), and
* `internal/app/statefiltering.go`     (`StateFilteringModel`),

together with the part of the `bubbles/textinput` and `bubbletea` libraries
that these two files call.  Go strings are taken to hold valid UTF-8 and are
represented by their rune sequence (`List Char`); a Go run-time panic is the
result `none`.
-/

namespace JLV

/-- Go `string` / `[]rune`, as a sequence of runes. -/
abbrev Str := List Char

/-! ## bubbletea: keys, messages, commands -/

/-- The `tea.KeyType` of a key message.  The program itself switches on
`KeyTab` and `KeyBackspace`; every other non-rune key type is kept through
its entry in bubbletea's `keyNames` table (`"up"`, `"ctrl+n"`, `"enter"`, ...). -/
inductive KeyType
  | KeyRunes
  | KeyTab
  | KeyBackspace
  | KeyOther (name : Str)
deriving DecidableEq, Repr

/-- The record `tea.Key` (a `tea.KeyMsg` is a `tea.Key`). -/
structure Key where
  type : KeyType
  Runes : Str
  Alt : Bool
  Paste : Bool
deriving DecidableEq, Repr

/-- The table `keyNames` of bubbletea, on the key types above. -/
def keyNames : KeyType → Str
  | KeyType.KeyRunes => "runes".toList
  | KeyType.KeyTab => "tab".toList
  | KeyType.KeyBackspace => "backspace".toList
  | KeyType.KeyOther name => name

/-- The method `Key.String` of bubbletea: `alt+` when Alt is set, then the
runes themselves for `KeyRunes` (in square brackets when pasted) or the
key name. -/
def Key.String (k : Key) : Str :=
  (if k.Alt then "alt+".toList else []) ++
    (match k.type with
     | KeyType.KeyRunes =>
        if k.Paste then "[".toList ++ k.Runes ++ "]".toList else k.Runes
     | t => keyNames t)

/-- The record `key.Binding` of bubbles: the bound keys and the disabled flag. -/
structure Binding where
  keys : List Str
  disabled : Bool
deriving DecidableEq, Repr

/-- The function `key.NewBinding(key.WithKeys(...))`. -/
def NewBinding (keys : List String) : Binding :=
  { keys := keys.map String.toList, disabled := false }

/-- The function `key.Matches(msg, binding)`: the string of the key is one
of the keys of an enabled binding. -/
def Matches (k : Key) (b : Binding) : Bool :=
  b.keys.any (fun v => decide (k.String = v) && !b.disabled)

/-- Atomic commands that the text input hands back to the host loop. -/
inductive TextCmd
  | Paste
  | Blink
  | Cursor
deriving DecidableEq, Repr

/-- Messages (`tea.Msg`) as far as the two files and the text input tell
them apart.  `other` stands for every remaining message (window resize,
ticks, load results, cursor blinking); `cursorCmd` records whether the cursor
of the text input answers it with a command. -/
inductive Msg
  | KeyMsg (k : Key)
  | ErrorOccuredMsg (err : Str)
  | pasteMsg (s : Str)
  | pasteErrMsg
  | other (tag : Nat) (cursorCmd : Bool)
deriving DecidableEq, Repr

/-- The key message of one typed character:
`tea.KeyMsg{Type: tea.KeyRunes, Runes: []rune{c}}`. -/
def runeKey (c : Char) : Msg :=
  Msg.KeyMsg { type := KeyType.KeyRunes, Runes := [c], Alt := false, Paste := false }

/-- The message `tea.KeyMsg{Type: tea.KeyTab}`. -/
def tabKey : Msg :=
  Msg.KeyMsg { type := KeyType.KeyTab, Runes := [], Alt := false, Paste := false }

/-- The message `tea.KeyMsg{Type: tea.KeyBackspace}`. -/
def backspaceKey : Msg :=
  Msg.KeyMsg { type := KeyType.KeyBackspace, Runes := [], Alt := false, Paste := false }

/-! ## bubbles/textinput -/

/-- The word-wise editing commands of the text input. -/
inductive WordCommand
  | deleteWordBackward
  | wordBackward
  | wordForward
  | deleteWordForward
deriving DecidableEq, Repr

/-- What the Go run time and the library supply and this development leaves
open: `lower` is `unicode.ToLower` (so that `strings.ToLower` maps it over
the runes), `wordEdit` is the effect of the four word-wise editing commands
of `textinput` on the value and the cursor position. -/
structure Lib where
  lower : Char → Char
  wordEdit : WordCommand → Str → Nat → Str × Nat

/-- The instance used for evaluation: ASCII lower-casing, and word commands
that leave the buffer alone. -/
def asciiLib : Lib :=
  { lower := Char.toLower, wordEdit := fun _ v p => (v, p) }

namespace textinput

/-- The record `textinput.Model`, without the fields that only rendering
reads (prompt, styles, width and offsets, cursor, echo mode) and without
`CharLimit`, `Validate` and `Err`: `New` leaves the limit at 0 and the
validator nil, and neither file assigns them. -/
structure Model where
  Placeholder : Str
  value : Str
  focus : Bool
  pos : Nat
  ShowSuggestions : Bool
  suggestions : List Str
  matchedSuggestions : List Str
  currentSuggestionIndex : Int
deriving DecidableEq, Repr

/-- The `DefaultKeyMap` of the text input. -/
structure KeyMap where
  CharacterForward : Binding
  CharacterBackward : Binding
  WordForward : Binding
  WordBackward : Binding
  DeleteWordBackward : Binding
  DeleteWordForward : Binding
  DeleteAfterCursor : Binding
  DeleteBeforeCursor : Binding
  DeleteCharacterBackward : Binding
  DeleteCharacterForward : Binding
  LineStart : Binding
  LineEnd : Binding
  Paste : Binding
  AcceptSuggestion : Binding
  NextSuggestion : Binding
  PrevSuggestion : Binding

/-- The value `textinput.DefaultKeyMap`. -/
def DefaultKeyMap : KeyMap :=
  { CharacterForward := NewBinding ["right", "ctrl+f"]
    CharacterBackward := NewBinding ["left", "ctrl+b"]
    WordForward := NewBinding ["alt+right", "ctrl+right", "alt+f"]
    WordBackward := NewBinding ["alt+left", "ctrl+left", "alt+b"]
    DeleteWordBackward := NewBinding ["alt+backspace", "ctrl+w"]
    DeleteWordForward := NewBinding ["alt+delete", "alt+d"]
    DeleteAfterCursor := NewBinding ["ctrl+k"]
    DeleteBeforeCursor := NewBinding ["ctrl+u"]
    DeleteCharacterBackward := NewBinding ["backspace", "ctrl+h"]
    DeleteCharacterForward := NewBinding ["delete", "ctrl+d"]
    LineStart := NewBinding ["home", "ctrl+a"]
    LineEnd := NewBinding ["end", "ctrl+e"]
    Paste := NewBinding ["ctrl+v"]
    AcceptSuggestion := NewBinding ["tab"]
    NextSuggestion := NewBinding ["down", "ctrl+n"]
    PrevSuggestion := NewBinding ["up", "ctrl+p"] }

/-- The function `unicode.IsControl`: the category Cc. -/
def isControl (c : Char) : Bool :=
  c.toNat < 32 || (127 ≤ c.toNat && c.toNat < 160)

/-- The sanitizer of the text input,
`runeutil.NewSanitizer(ReplaceTabs(" "), ReplaceNewlines(" "))`: the
replacement rune U+FFFD and control characters are dropped, tabs and line
breaks become one space. -/
def Sanitize (runes : Str) : Str :=
  runes.flatMap (fun r =>
    if r.toNat = 65533 then []
    else if r.toNat = 13 ∨ r.toNat = 10 then [Char.ofNat 32]
    else if r.toNat = 9 then [Char.ofNat 32]
    else if isControl r then []
    else [r])

/-- The function `textinput.New`, on the fields kept. -/
def New : Model :=
  { Placeholder := []
    value := []
    focus := false
    pos := 0
    ShowSuggestions := false
    suggestions := []
    matchedSuggestions := []
    currentSuggestionIndex := 0 }

/-- The method `Focus`. -/
def Focus (m : Model) : Model := { m with focus := true }

/-- The method `Value`. -/
def Value (m : Model) : Str := m.value

/-- The method `SetCursor`: the position clamped into the value. -/
def SetCursor (m : Model) (pos : Nat) : Model :=
  { m with pos := min pos m.value.length }

/-- The method `CursorEnd`. -/
def CursorEnd (m : Model) : Model := SetCursor m m.value.length

/-- The method `CursorStart`. -/
def CursorStart (m : Model) : Model := SetCursor m 0

/-- The method `Reset`. -/
def Reset (m : Model) : Model := SetCursor { m with value := [] } 0

/-- The method `setValueInternal` (no character limit). -/
def setValueInternal (m : Model) (runes : Str) : Model :=
  let empty := m.value.length == 0
  let m1 := { m with value := runes }
  if (m1.pos == 0 && empty) || decide (m1.pos > m1.value.length) then
    SetCursor m1 m1.value.length
  else m1

/-- The method `SetValue`:
`runes := m.san().Sanitize([]rune(s)); m.setValueInternal(runes, err)`. -/
def SetValue (m : Model) (s : Str) : Model := setValueInternal m (Sanitize s)

/-- The method `updateSuggestions`: nothing when suggestions are off; no
match on an empty value or an empty list
(`if len(m.value) <= 0 || len(m.suggestions) <= 0`); else the suggestions
with `strings.HasPrefix(strings.ToLower(suggestion), strings.ToLower(string(m.value)))`,
and the index back to 0 when the matches changed. -/
def updateSuggestions (L : Lib) (m : Model) : Model :=
  if !m.ShowSuggestions then m
  else if m.value.length ≤ 0 ∨ m.suggestions.length ≤ 0 then
    { m with matchedSuggestions := [] }
  else
    let found := m.suggestions.filter
      (fun s => (m.value.map L.lower).isPrefixOf (s.map L.lower))
    { m with
      currentSuggestionIndex :=
        if found ≠ m.matchedSuggestions then 0 else m.currentSuggestionIndex
      matchedSuggestions := found }

/-- The method `SetSuggestions`. -/
def SetSuggestions (L : Lib) (m : Model) (suggestions : List Str) : Model :=
  updateSuggestions L { m with suggestions := suggestions }

/-- The method `AvailableSuggestions`, `return m.getSuggestions(m.suggestions)`:
all the suggestions that were set, whatever the value; the matched ones are
`MatchedSuggestions`. -/
def AvailableSuggestions (m : Model) : List Str := m.suggestions

/-- The method `MatchedSuggestions`. -/
def MatchedSuggestions (m : Model) : List Str := m.matchedSuggestions

/-- Indexing a Go slice with an `int`: a panic outside the bounds. -/
def index {α : Type} (xs : List α) (i : Int) : Option α :=
  if i < 0 then none else xs.get? i.toNat

/-- The method `CurrentSuggestion`: the empty string when the index is at or
past the end of the matches
(`if m.currentSuggestionIndex >= len(m.matchedSuggestions)`), else
`m.matchedSuggestions[m.currentSuggestionIndex]`. -/
def CurrentSuggestion (m : Model) : Option Str :=
  if m.currentSuggestionIndex ≥ (m.matchedSuggestions.length : Int) then some []
  else index m.matchedSuggestions m.currentSuggestionIndex

/-- The method `canAcceptSuggestion`. -/
def canAcceptSuggestion (m : Model) : Bool := m.matchedSuggestions.length > 0

/-- The method `nextSuggestion`. -/
def nextSuggestion (m : Model) : Model :=
  let i := m.currentSuggestionIndex + 1
  { m with currentSuggestionIndex :=
      if i ≥ (m.matchedSuggestions.length : Int) then 0 else i }

/-- The method `previousSuggestion`: one back, and from below 0 to
`len(m.matchedSuggestions) - 1`, which is -1 when nothing matches. -/
def previousSuggestion (m : Model) : Model :=
  let i := m.currentSuggestionIndex - 1
  { m with currentSuggestionIndex :=
      if i < 0 then (m.matchedSuggestions.length : Int) - 1 else i }

/-- The method `insertRunesFromUserInput` (no character limit): the
sanitized runes go in at the cursor, which moves behind them. -/
def insertRunesFromUserInput (m : Model) (v : Str) : Model :=
  let paste := Sanitize v
  let head := m.value.take m.pos
  let tail := m.value.drop m.pos
  setValueInternal { m with pos := m.pos + paste.length } (head ++ paste ++ tail)

/-- The `switch` over the key bindings in `Update`, in the order of the
library.  The result `none` is the `Paste` case, which returns at once with
the paste command; every other case yields the edited model. -/
def handleKey (L : Lib) (m : Model) (k : Key) : Option Model :=
  let km := DefaultKeyMap
  let word := fun (c : WordCommand) =>
    let r := L.wordEdit c m.value m.pos
    some { m with value := r.1, pos := r.2 }
  if Matches k km.DeleteWordBackward then word WordCommand.deleteWordBackward
  else if Matches k km.DeleteCharacterBackward then
    if m.value.length > 0 then
      let m1 := { m with value := m.value.take (m.pos - 1) ++ m.value.drop m.pos }
      if m1.pos > 0 then some (SetCursor m1 (m1.pos - 1)) else some m1
    else some m
  else if Matches k km.WordBackward then word WordCommand.wordBackward
  else if Matches k km.CharacterBackward then
    if m.pos > 0 then some (SetCursor m (m.pos - 1)) else some m
  else if Matches k km.WordForward then word WordCommand.wordForward
  else if Matches k km.CharacterForward then
    if m.pos < m.value.length then some (SetCursor m (m.pos + 1)) else some m
  else if Matches k km.LineStart then some (CursorStart m)
  else if Matches k km.DeleteCharacterForward then
    if m.value.length > 0 ∧ m.pos < m.value.length then
      some { m with value := m.value.take m.pos ++ m.value.drop (m.pos + 1) }
    else some m
  else if Matches k km.LineEnd then some (CursorEnd m)
  else if Matches k km.DeleteAfterCursor then
    let m1 := { m with value := m.value.take m.pos }
    some (SetCursor m1 m1.value.length)
  else if Matches k km.DeleteBeforeCursor then
    some (SetCursor { m with value := m.value.drop m.pos } 0)
  else if Matches k km.Paste then none
  else if Matches k km.DeleteWordForward then word WordCommand.deleteWordForward
  else if Matches k km.NextSuggestion then some (nextSuggestion m)
  else if Matches k km.PrevSuggestion then some (previousSuggestion m)
  else some (insertRunesFromUserInput m k.Runes)

/-- The first step of `Update`: a key bound to `AcceptSuggestion` completes
the value with the rest of the current match, when there is a match.  The
two slice accesses panic outside their bounds. -/
def acceptSuggestion (m : Model) (msg : Msg) : Option Model :=
  match msg with
  | Msg.KeyMsg k =>
    if Matches k DefaultKeyMap.AcceptSuggestion && canAcceptSuggestion m then
      match index m.matchedSuggestions m.currentSuggestionIndex with
      | none => none
      | some s =>
        if m.value.length ≤ s.length then
          some (CursorEnd { m with value := m.value ++ s.drop m.value.length })
        else none
    else some m
  | _ => some m

/-- The command that the cursor of the text input returns for a message. -/
def cursorCmd : Msg → List TextCmd
  | Msg.other _ true => [TextCmd.Cursor]
  | _ => []

/-- The method `textinput.Model.Update`.  A command is the list of the
atomic commands batched in it; the nil command is the empty list. -/
def Update (L : Lib) (m : Model) (msg : Msg) : Option (Model × List TextCmd) :=
  if !m.focus then some (m, [])
  else
    match acceptSuggestion m msg with
    | none => none
    | some m0 =>
      let oldPos := m0.pos
      let finish := fun (m1 : Model) =>
        some (m1, cursorCmd msg ++ (if oldPos ≠ m1.pos then [TextCmd.Blink] else []))
      match msg with
      | Msg.KeyMsg k =>
        match handleKey L m0 k with
        | none => some (m0, [TextCmd.Paste])
        | some m1 => finish (updateSuggestions L m1)
      | Msg.pasteMsg s => finish (insertRunesFromUserInput m0 s)
      | _ => finish m0

end textinput

/-! ## internal/pkg/widgets/pillinput.go -/

/-- The record `PillInputModel`; `help` and `keymap` hold no state of the
input (they only render the help line). -/
structure PillInputModel where
  textInput : textinput.Model
  filterField : Str
  isPillVisible : Bool
  suggestions : List Str
deriving DecidableEq, Repr

/-- The constructor `NewPillInputModel`. -/
def NewPillInputModel (L : Lib) (suggestions : List Str) : PillInputModel :=
  let ti := textinput.New
  let ti := { ti with Placeholder := "Field name or search term...".toList }
  let ti := textinput.Focus ti
  let ti := { ti with ShowSuggestions := true }
  let ti := textinput.SetSuggestions L ti suggestions
  { textInput := ti, isPillVisible := false, filterField := [], suggestions := suggestions }

namespace PillInputModel

/-- The method `PillInputModel.Update`.  The result `none` is a run-time
panic (of `CurrentSuggestion` or of the text input). -/
def Update (L : Lib) (m : PillInputModel) (msg : Msg) :
    Option (PillInputModel × List TextCmd) :=
  let rest := fun (m : PillInputModel) =>
    match textinput.Update L m.textInput msg with
    | none => none
    | some (ti, cmd) => some ({ m with textInput := ti }, cmd)
  match msg with
  | Msg.KeyMsg k =>
    match k.type with
    | KeyType.KeyTab =>
      if m.textInput.ShowSuggestions
          && decide ((textinput.AvailableSuggestions m.textInput).length > 0) then
        match textinput.CurrentSuggestion m.textInput with
        | none => none
        | some cur =>
          let m := { m with filterField := cur }
          let m := { m with isPillVisible := true }
          let m := { m with textInput := textinput.Reset m.textInput }
          let m := { m with textInput := textinput.SetValue m.textInput [] }
          let m := { m with textInput := textinput.SetSuggestions L m.textInput [] }
          let m := { m with textInput :=
            { m.textInput with Placeholder := "Search term...".toList } }
          let m := { m with textInput := { m.textInput with ShowSuggestions := false } }
          some (m, [])
      else rest m
    | KeyType.KeyBackspace =>
      if textinput.Value m.textInput == [] && m.isPillVisible then
        let m := { m with isPillVisible := false }
        let m := { m with textInput := textinput.Reset m.textInput }
        let m := { m with textInput := textinput.SetValue m.textInput m.filterField }
        let m := { m with textInput := textinput.CursorEnd m.textInput }
        let m := { m with filterField := [] }
        let m := { m with textInput := { m.textInput with ShowSuggestions := true } }
        let m := { m with textInput := textinput.SetSuggestions L m.textInput m.suggestions }
        some (m, [])
      else rest m
    | _ => rest m
  | _ => rest m

/-- The method `PillInputModel.Value`. -/
def Value (m : PillInputModel) : Str × Str :=
  (m.filterField, textinput.Value m.textInput)

/-- Feeding a sequence of messages to `Update`, one after the other,
dropping the commands. -/
def run (L : Lib) (m : PillInputModel) : List Msg → Option PillInputModel
  | [] => some m
  | msg :: rest =>
    match Update L m msg with
    | none => none
    | some (m1, _) => run L m1 rest

end PillInputModel

/-- Typing the characters of a string one at a time. -/
def typed (p : Str) : List Msg := p.map runeKey

/-! ## internal/app/statefiltering.go -/

/-- The bindings of `keymap.KeyMap` that the filtering state reads. -/
structure KeyMap where
  Back : Binding
  Open : Binding
deriving DecidableEq, Repr

/-- Atomic commands of the application: those of the text input, the
function `events.EscKeyClicked`, and the commands `c` of the other files of
package `app`.  A `tea.Cmd` is the list of the atomic commands batched in
it; the nil command is the empty list. -/
inductive Cmd (C : Type)
  | input (c : TextCmd)
  | EscKeyClicked
  | ext (c : C)
deriving DecidableEq, Repr

/-- The record `StateFilteringModel`.  The embedded `*Application` is a
pointer shared with `previousState`; the state it points to is passed along
separately (type `A`).  `Lv` is `StateLoadedModel`, `T` is `logsTableModel`. -/
structure StateFilteringModel (Lv T : Type) where
  previousState : Lv
  table : T
  textInput : PillInputModel
  keys : KeyMap

/-- The functions of package `app` that statefiltering.go calls and that are
defined in its other files, as parameters: `A` is the state behind
`*Application`, `Lv` the loaded state, `T` the table, `F` the filtered
state, `M` the (non-nil) models returned on leaving the filtering state, `C`
their commands. -/
structure App (A Lv T F M C : Type) where
  /-- The method `(*Application).Update`, called for its effect. -/
  Update : A → Msg → A
  /-- The titles of `previousState.Config.Fields`, in order. -/
  fieldTitles : A → Lv → List Str
  /-- The field `previousState.table`. -/
  table : Lv → T
  /-- The value `previousState.getApplication().keys`. -/
  keys : A → Lv → KeyMap
  /-- The method `logsTableModel.Update`. -/
  tableUpdate : T → Msg → T × List (Cmd C)
  /-- The method `StateLoadedModel.refresh`. -/
  refresh : A → Lv → M × List (Cmd C)
  /-- The method `handleErrorOccuredMsg`. -/
  handleErrorOccuredMsg : A → Str → M × List (Cmd C)
  /-- The function `newStateFiltered(previousState, term, field)`. -/
  newStateFiltered : A → Lv → Str → Str → F
  /-- The function `initializeModel`. -/
  initializeModel : F → M × List (Cmd C)

/-- The `tea.Model` that a method of the filtering state returns: the
filtering state itself, or the model of another state. -/
inductive Next (Lv T M : Type)
  | filtering (s : StateFilteringModel Lv T)
  | leave (m : M)

section app

variable {A Lv T F M C : Type}

/-- The constructor `newStateFiltering`. -/
def newStateFiltering (L : Lib) (E : App A Lv T F M C) (app : A) (previousState : Lv) :
    StateFilteringModel Lv T :=
  let s := E.fieldTitles app previousState
  let textInput := NewPillInputModel L s
  { previousState := previousState
    table := E.table previousState
    textInput := textInput
    keys := E.keys app previousState }

namespace StateFilteringModel

/-- The method `handleEnterKeyClickedMsg`. -/
def handleEnterKeyClickedMsg (E : App A Lv T F M C) (app : A)
    (s : StateFilteringModel Lv T) : Next Lv T M × List (Cmd C) :=
  let (filterField, input) := s.textInput.Value
  if input == [] then
    (Next.filtering s, [Cmd.EscKeyClicked])
  else
    let r := E.initializeModel (E.newStateFiltered app s.previousState input filterField)
    (Next.leave r.1, r.2)

/-- The method `handleKeyMsg`; the result `none` is the pair `nil, nil`. -/
def handleKeyMsg (E : App A Lv T F M C) (app : A) (s : StateFilteringModel Lv T)
    (msg : Key) : Option (Next Lv T M × List (Cmd C)) :=
  if Matches msg s.keys.Back && decide (msg.Runes ≠ "q".toList) then
    let r := E.refresh app s.previousState
    some (Next.leave r.1, r.2)
  else if Matches msg s.keys.Open then
    some (handleEnterKeyClickedMsg E app s)
  else none

/-- The method `StateFilteringModel.Update`: the new state behind
`*Application`, the returned model and the returned command.  The result
`none` is a run-time panic of the input. -/
def Update (L : Lib) (E : App A Lv T F M C) (app : A) (s : StateFilteringModel Lv T)
    (msg : Msg) : Option (A × Next Lv T M × List (Cmd C)) :=
  let app := E.Update app msg
  let input := fun (s : StateFilteringModel Lv T) (cmdBatch : List (Cmd C)) =>
    match PillInputModel.Update L s.textInput msg with
    | none => none
    | some (ti, cmd) =>
      some (app, Next.filtering { s with textInput := ti }, cmdBatch ++ cmd.map Cmd.input)
  match msg with
  | Msg.ErrorOccuredMsg err =>
    let r := E.handleErrorOccuredMsg app err
    some (app, Next.leave r.1, r.2)
  | Msg.KeyMsg k =>
    match handleKeyMsg E app s k with
    | some (mdl, cmd) => some (app, mdl, cmd)
    | none => input s []
  | _ =>
    let r := E.tableUpdate s.table msg
    input { s with table := r.1 } r.2

/-- Feeding messages to `Update` for as long as the model stays the
filtering state: the state behind `*Application` and the filtering state
after the last message, `none` when a message left the state or panicked. -/
def runFiltering (L : Lib) (E : App A Lv T F M C) (app : A) (s : StateFilteringModel Lv T) :
    List Msg → Option (A × StateFilteringModel Lv T)
  | [] => some (app, s)
  | msg :: rest =>
    match Update L E app s msg with
    | some (app1, Next.filtering s1, _) => runFiltering L E app1 s1 rest
    | _ => none

end StateFilteringModel

end app

/-! ## Rendering -/

/-- The rendering functions that the two `View` methods call, as parameters:
they belong to lipgloss, to bubbles and to the other files of package `app`. -/
structure Rendering (A T : Type) where
  /-- The function `pillStyle.Render`. -/
  pillStyleRender : Str → Str
  /-- The method `textinput.Model.View`. -/
  textInputView : textinput.Model → Str
  /-- The value `m.help.View(m.keymap)`; neither field is ever assigned. -/
  helpView : Str
  /-- The function `s.BaseStyle.Render`, read through `*Application`. -/
  baseStyleRender : A → Str → Str
  /-- The method `logsTableModel.View`. -/
  tableView : T → Str

/-- The method `PillInputModel.View`. -/
def PillInputModel.View {A T : Type} (R : Rendering A T) (m : PillInputModel) : Str :=
  let s : Str := []
  let s := if m.isPillVisible then s ++ R.pillStyleRender (m.filterField ++ ":".toList) else s
  let s := s ++ R.textInputView m.textInput
  s ++ [Char.ofNat 10] ++ R.helpView

/-- The method `StateFilteringModel.View`. -/
def StateFilteringModel.View {A Lv T : Type} (R : Rendering A T) (app : A)
    (s : StateFilteringModel Lv T) : Str :=
  R.baseStyleRender app (R.tableView s.table) ++ [Char.ofNat 10]
    ++ PillInputModel.View R s.textInput

/-! ## Definitions used to state the properties -/

/-- Characters that the sanitizer of the text input keeps as they are:
neither a control character (tab and line breaks included) nor U+FFFD. -/
def printable (c : Char) : Prop :=
  c.toNat ≠ 65533 ∧ textinput.isControl c = false

instance (c : Char) : Decidable (printable c) := by
  unfold printable; infer_instance

/-- The suggestions of `S` whose lower-cased text starts with the lower-cased
`q`, in the order of `S`. -/
def matchesOf (L : Lib) (S : List Str) (q : Str) : List Str :=
  S.filter (fun s => (q.map L.lower).isPrefixOf (s.map L.lower))

/-- The model in the field-selection phase with buffer `q` typed at the end,
over the suggestion source `S`. -/
def fieldState (L : Lib) (S : List Str) (q : Str) : PillInputModel :=
  { textInput :=
      { Placeholder := "Field name or search term...".toList
        value := q
        focus := true
        pos := q.length
        ShowSuggestions := true
        suggestions := S
        matchedSuggestions := if q = [] then [] else matchesOf L S q
        currentSuggestionIndex := 0 }
    filterField := []
    isPillVisible := false
    suggestions := S }

/-- The model in the value-entry phase with selected field `f` and buffer
`w` typed at the end, over the suggestion source `S`. -/
def valueState (S : List Str) (f w : Str) : PillInputModel :=
  { textInput :=
      { Placeholder := "Search term...".toList
        value := w
        focus := true
        pos := w.length
        ShowSuggestions := false
        suggestions := []
        matchedSuggestions := []
        currentSuggestionIndex := 0 }
    filterField := f
    isPillVisible := true
    suggestions := S }

/-- The field that Tab selects in the field-selection phase with buffer `q`
over a non-empty source `S`: the first match, or the empty string. -/
def selection (L : Lib) (S : List Str) (q : Str) : Str :=
  (if q = [] then [] else matchesOf L S q).headD []

/-- An instance of the parameters of package `app`, for evaluation: the
state behind `*Application` counts the messages, the loaded state is its
list of field titles, and a filtered state is the triple it was built from. -/
def sampleApp :
    App Nat (List Str) Nat (List Str × Str × Str) (Option (List Str × Str × Str)) Nat :=
  { Update := fun a _ => a + 1
    fieldTitles := fun _ l => l
    table := fun l => l.length
    keys := fun _ _ => { Back := NewBinding ["esc", "q"], Open := NewBinding ["enter"] }
    tableUpdate := fun t _ => (t, [])
    refresh := fun _ _ => (none, [Cmd.ext 0])
    handleErrorOccuredMsg := fun _ _ => (none, [])
    newStateFiltered := fun _ l term field => (l, term, field)
    initializeModel := fun f => (some f, [Cmd.ext 1]) }

/-- The message of a key without runes, by its name. -/
def namedKey (name : String) : Key :=
  { type := KeyType.KeyOther name.toList, Runes := [], Alt := false, Paste := false }

/-- A second instance of the parameters of package `app`: as `sampleApp`,
with a table that counts the messages passed to its `Update`. -/
def tickingApp :
    App Nat (List Str) Nat (List Str × Str × Str) (Option (List Str × Str × Str)) Nat :=
  { sampleApp with tableUpdate := fun t _ => (t + 1, [Cmd.ext 2]) }

/-- An instance of the rendering functions, for evaluation: the pill in
square brackets, the buffer of the text input, a fixed help line, the table
as a row of stars. -/
def sampleRendering : Rendering Nat Nat :=
  { pillStyleRender := fun t => "[".toList ++ t ++ "]".toList
    textInputView := fun ti => "> ".toList ++ ti.value
    helpView := "tab complete".toList
    baseStyleRender := fun _ t => t
    tableView := fun n => List.replicate n (Char.ofNat 42) }

/-- The fields of the text input that its editing keys never assign. -/
def sameFlags (m m1 : textinput.Model) : Prop :=
  m1.focus = m.focus ∧ m1.ShowSuggestions = m.ShowSuggestions ∧
  m1.suggestions = m.suggestions ∧ m1.matchedSuggestions = m.matchedSuggestions

/-- The flags of the text input that encode the phase, as they stand in
every model reached from `NewPillInputModel`: the input is focused,
suggestions are on exactly when the pill is hidden, and a visible pill goes
with no suggestion held and none matched. -/
def phaseInv (m : PillInputModel) : Prop :=
  m.textInput.focus = true ∧
  m.textInput.ShowSuggestions = !m.isPillVisible ∧
  (m.isPillVisible = true →
    m.textInput.suggestions = [] ∧ m.textInput.matchedSuggestions = [])

/-! ## Keys, bindings and the sanitizer -/

theorem Matches_eq_false (k : Key) (b : Binding) (h : ∀ v ∈ b.keys, k.String ≠ v) :
    Matches k b = false := by
  unfold Matches
  rw [List.any_eq_false]
  intro v hv
  simp [h v hv]

/-- The key of one typed character is bound to nothing in a binding whose
keys all have two characters or more. -/
theorem Matches_rune (c : Char) (b : Binding) (h : ∀ v ∈ b.keys, 2 ≤ v.length) :
    Matches { type := KeyType.KeyRunes, Runes := [c], Alt := false, Paste := false } b
      = false := by
  apply Matches_eq_false
  intro v hv heq
  have h2 := h v hv
  rw [← heq] at h2
  simp [Key.String] at h2

theorem Sanitize_nil : textinput.Sanitize [] = [] := rfl

theorem Sanitize_cons_printable (c : Char) (w : Str) (hc : printable c) :
    textinput.Sanitize (c :: w) = c :: textinput.Sanitize w := by
  obtain ⟨h1, h2⟩ := hc
  have h3 : c.toNat ≠ 13 := by
    intro h; simp [textinput.isControl, h] at h2
  have h4 : c.toNat ≠ 10 := by
    intro h; simp [textinput.isControl, h] at h2
  have h5 : c.toNat ≠ 9 := by
    intro h; simp [textinput.isControl, h] at h2
  simp [textinput.Sanitize, List.flatMap_cons, h1, h2, h3, h4, h5]

theorem Sanitize_printable (w : Str) (hw : ∀ c ∈ w, printable c) :
    textinput.Sanitize w = w := by
  induction w with
  | nil => rfl
  | cons c w ih =>
    rw [Sanitize_cons_printable c w (hw c (List.mem_cons_self c w)),
      ih (fun d hd => hw d (List.mem_cons_of_mem c hd))]

/-! ## The text input on typed characters, Tab and Backspace -/

/-- A typed character reaches the default case of the key switch. -/
theorem handleKey_rune (L : Lib) (m : textinput.Model) (c : Char) :
    textinput.handleKey L m
        { type := KeyType.KeyRunes, Runes := [c], Alt := false, Paste := false }
      = some (textinput.insertRunesFromUserInput m [c]) := by
  unfold textinput.handleKey
  simp only [Matches_rune c textinput.DefaultKeyMap.DeleteWordBackward (by decide),
    Matches_rune c textinput.DefaultKeyMap.DeleteCharacterBackward (by decide),
    Matches_rune c textinput.DefaultKeyMap.WordBackward (by decide),
    Matches_rune c textinput.DefaultKeyMap.CharacterBackward (by decide),
    Matches_rune c textinput.DefaultKeyMap.WordForward (by decide),
    Matches_rune c textinput.DefaultKeyMap.CharacterForward (by decide),
    Matches_rune c textinput.DefaultKeyMap.LineStart (by decide),
    Matches_rune c textinput.DefaultKeyMap.DeleteCharacterForward (by decide),
    Matches_rune c textinput.DefaultKeyMap.LineEnd (by decide),
    Matches_rune c textinput.DefaultKeyMap.DeleteAfterCursor (by decide),
    Matches_rune c textinput.DefaultKeyMap.DeleteBeforeCursor (by decide),
    Matches_rune c textinput.DefaultKeyMap.Paste (by decide),
    Matches_rune c textinput.DefaultKeyMap.DeleteWordForward (by decide),
    Matches_rune c textinput.DefaultKeyMap.NextSuggestion (by decide),
    Matches_rune c textinput.DefaultKeyMap.PrevSuggestion (by decide)]
  simp

/-- A typed character is not the key that accepts a suggestion. -/
theorem acceptSuggestion_rune (m : textinput.Model) (c : Char) :
    textinput.acceptSuggestion m (runeKey c) = some m := by
  simp [textinput.acceptSuggestion, runeKey,
    Matches_rune c textinput.DefaultKeyMap.AcceptSuggestion (by decide)]

/-- Inserting one printable character at the end of the value. -/
theorem insertRunes_end (m : textinput.Model) (c : Char) (hc : printable c)
    (hpos : m.pos = m.value.length) :
    textinput.insertRunesFromUserInput m [c]
      = { m with value := m.value ++ [c], pos := m.value.length + 1 } := by
  unfold textinput.insertRunesFromUserInput
  rw [Sanitize_cons_printable c [] hc, Sanitize_nil]
  simp [textinput.setValueInternal, hpos]

/-- The key message of one typed printable character, on a focused text
input with the cursor at the end: the character is appended and the matches
are recomputed. -/
theorem textinput_Update_rune (L : Lib) (m : textinput.Model) (c : Char)
    (hc : printable c) (hf : m.focus = true) (hpos : m.pos = m.value.length) :
    textinput.Update L m (runeKey c)
      = some (textinput.updateSuggestions L
          { m with value := m.value ++ [c], pos := m.value.length + 1 },
          [TextCmd.Blink]) := by
  unfold textinput.Update
  rw [acceptSuggestion_rune]
  simp only [hf, runeKey, handleKey_rune, insertRunes_end m c hc hpos]
  simp [textinput.cursorCmd, textinput.updateSuggestions, hpos]
  split_ifs <;> simp

/-! ## The two phases of the pill input -/

theorem matchesOf_nil (L : Lib) (q : Str) : matchesOf L [] q = [] := rfl

theorem NewPillInputModel_eq (L : Lib) (S : List Str) :
    NewPillInputModel L S = fieldState L S [] := by
  simp [NewPillInputModel, fieldState, textinput.New, textinput.Focus,
    textinput.SetSuggestions, textinput.updateSuggestions]

/-- Typing one printable character in the field-selection phase. -/
theorem Update_fieldState_rune (L : Lib) (S : List Str) (q : Str) (c : Char)
    (hc : printable c) :
    PillInputModel.Update L (fieldState L S q) (runeKey c)
      = some (fieldState L S (q ++ [c]), [TextCmd.Blink]) := by
  have h := textinput_Update_rune L (fieldState L S q).textInput c hc rfl rfl
  simp only [PillInputModel.Update, runeKey] at h ⊢
  rw [h]
  cases S with
  | nil => simp [fieldState, textinput.updateSuggestions, matchesOf_nil]
  | cons s S =>
    simp [fieldState, textinput.updateSuggestions, matchesOf]

/-- Typing printable characters one at a time in the field-selection phase. -/
theorem run_fieldState_typed (L : Lib) (S : List Str) (p q : Str)
    (hp : ∀ c ∈ p, printable c) :
    PillInputModel.run L (fieldState L S q) (typed p) = some (fieldState L S (q ++ p)) := by
  induction p generalizing q with
  | nil => simp [typed, PillInputModel.run]
  | cons c p ih =>
    have hc := hp c (List.mem_cons_self c p)
    simp only [typed, List.map_cons, PillInputModel.run,
      Update_fieldState_rune L S q c hc]
    have := ih (q ++ [c]) (fun d hd => hp d (List.mem_cons_of_mem c hd))
    simpa [typed] using this

/-- Typing one printable character in the value-entry phase. -/
theorem Update_valueState_rune (L : Lib) (S : List Str) (f w : Str) (c : Char)
    (hc : printable c) :
    PillInputModel.Update L (valueState S f w) (runeKey c)
      = some (valueState S f (w ++ [c]), [TextCmd.Blink]) := by
  have h := textinput_Update_rune L (valueState S f w).textInput c hc rfl rfl
  simp only [PillInputModel.Update, runeKey] at h ⊢
  rw [h]
  simp [valueState, textinput.updateSuggestions]

/-- Typing printable characters one at a time in the value-entry phase. -/
theorem run_valueState_typed (L : Lib) (S : List Str) (f w v : Str)
    (hw : ∀ c ∈ w, printable c) :
    PillInputModel.run L (valueState S f v) (typed w) = some (valueState S f (v ++ w)) := by
  induction w generalizing v with
  | nil => simp [typed, PillInputModel.run]
  | cons c w ih =>
    have hc := hw c (List.mem_cons_self c w)
    simp only [typed, List.map_cons, PillInputModel.run,
      Update_valueState_rune L S f v c hc]
    have := ih (v ++ [c]) (fun d hd => hw d (List.mem_cons_of_mem c hd))
    simpa [typed] using this

/-- The method `updateSuggestions` touches the matches and the index only. -/
theorem updateSuggestions_fields (L : Lib) (m : textinput.Model) :
    (textinput.updateSuggestions L m).value = m.value ∧
    (textinput.updateSuggestions L m).pos = m.pos ∧
    (textinput.updateSuggestions L m).focus = m.focus ∧
    (textinput.updateSuggestions L m).Placeholder = m.Placeholder ∧
    (textinput.updateSuggestions L m).ShowSuggestions = m.ShowSuggestions ∧
    (textinput.updateSuggestions L m).suggestions = m.suggestions := by
  unfold textinput.updateSuggestions
  split_ifs <;> simp

/-- Tab in the field-selection phase over a non-empty source: the current
suggestion, or the empty string when nothing matches, becomes the field. -/
theorem Update_fieldState_tab (L : Lib) (S : List Str) (q : Str) (hS : S ≠ []) :
    PillInputModel.Update L (fieldState L S q) tabKey
      = some (valueState S ((if q = [] then [] else matchesOf L S q).headD []) [], []) := by
  have hlen : 0 < S.length := List.length_pos.mpr hS
  simp only [PillInputModel.Update, tabKey, fieldState, textinput.AvailableSuggestions,
    textinput.CurrentSuggestion, textinput.index]
  cases hm : (if q = [] then [] else matchesOf L S q) with
  | nil =>
    simp [hlen, valueState, textinput.Reset, textinput.SetCursor, textinput.SetValue,
      textinput.setValueInternal, textinput.SetSuggestions, textinput.updateSuggestions,
      Sanitize_nil]
  | cons a rest =>
    have hpos : ¬ ((rest.length : Int) + 1 ≤ 0) := by omega
    simp [hlen, valueState, textinput.Reset, textinput.SetCursor, textinput.SetValue,
      textinput.setValueInternal, textinput.SetSuggestions, textinput.updateSuggestions,
      Sanitize_nil, hpos]

/-- Backspace on a non-empty buffer in the value-entry phase, cursor at the
end: the last character goes. -/
theorem Update_valueState_backspace (L : Lib) (S : List Str) (f w : Str) (c : Char) :
    PillInputModel.Update L (valueState S f (w ++ [c])) backspaceKey
      = some (valueState S f w, [TextCmd.Blink]) := by
  have h1 : Matches { type := KeyType.KeyBackspace, Runes := [], Alt := false, Paste := false }
      textinput.DefaultKeyMap.AcceptSuggestion = false := by decide
  have h2 : Matches { type := KeyType.KeyBackspace, Runes := [], Alt := false, Paste := false }
      textinput.DefaultKeyMap.DeleteWordBackward = false := by decide
  have h3 : Matches { type := KeyType.KeyBackspace, Runes := [], Alt := false, Paste := false }
      textinput.DefaultKeyMap.DeleteCharacterBackward = true := by decide
  simp [PillInputModel.Update, backspaceKey, valueState, textinput.Value, textinput.Update,
    textinput.acceptSuggestion, textinput.handleKey, h1, h2, h3, textinput.SetCursor,
    textinput.updateSuggestions, textinput.cursorCmd]

/-- Backspace on an empty buffer with the pill visible, in any model: the
text of the field, sanitized, goes back to the buffer with the cursor at its
end, the field is cleared and the suggestions are set again from the
stored source. -/
theorem Update_backspace_empty (L : Lib) (m : PillInputModel)
    (hv : m.isPillVisible = true) (he : m.textInput.value = []) :
    PillInputModel.Update L m backspaceKey
      = some
          ({ textInput := textinput.updateSuggestions L
              { m.textInput with
                value := textinput.Sanitize m.filterField
                pos := (textinput.Sanitize m.filterField).length
                ShowSuggestions := true
                suggestions := m.suggestions }
             filterField := []
             isPillVisible := false
             suggestions := m.suggestions }, []) := by
  simp [PillInputModel.Update, backspaceKey, textinput.Value, hv, he, textinput.Reset,
    textinput.SetCursor, textinput.SetValue, textinput.setValueInternal,
    textinput.CursorEnd, textinput.SetSuggestions]

/-! ## What one step of the pill input can do to the phase -/

/-- One `Update` that returns either changes the text input only, or is the
Tab transition (pill shown), or is the Backspace transition (pill hidden,
field cleared); the stored source is kept in each case. -/
theorem Update_cases (L : Lib) (m m1 : PillInputModel) (msg : Msg) (cmd : List TextCmd)
    (h : PillInputModel.Update L m msg = some (m1, cmd)) :
    m1.suggestions = m.suggestions ∧
    ((m1.filterField = m.filterField ∧ m1.isPillVisible = m.isPillVisible) ∨
     (m1.isPillVisible = true ∧ m.textInput.ShowSuggestions = true) ∨
     (m1.isPillVisible = false ∧ m1.filterField = [])) := by
  have rest : ∀ r : Option (textinput.Model × List TextCmd),
      (match r with
        | none => none
        | some (ti, cmd) => some ({ m with textInput := ti }, cmd)) = some (m1, cmd) →
      m1.suggestions = m.suggestions ∧
      ((m1.filterField = m.filterField ∧ m1.isPillVisible = m.isPillVisible) ∨
       (m1.isPillVisible = true ∧ m.textInput.ShowSuggestions = true) ∨
       (m1.isPillVisible = false ∧ m1.filterField = [])) := by
    intro r hr
    cases r with
    | none => simp at hr
    | some x =>
      obtain ⟨ti, c⟩ := x
      simp only [Option.some.injEq, Prod.mk.injEq] at hr
      obtain ⟨hm, _⟩ := hr
      subst hm
      simp
  unfold PillInputModel.Update at h
  cases msg with
  | KeyMsg k =>
    simp only at h
    cases hk : k.type with
    | KeyRunes => rw [hk] at h; exact rest _ h
    | KeyOther n => rw [hk] at h; exact rest _ h
    | KeyTab =>
      rw [hk] at h
      simp only at h
      split_ifs at h with hg
      · cases hc : textinput.CurrentSuggestion m.textInput with
        | none => rw [hc] at h; simp at h
        | some cur =>
          rw [hc] at h
          simp only [Option.some.injEq, Prod.mk.injEq] at h
          obtain ⟨hm, _⟩ := h
          subst hm
          simp only [Bool.and_eq_true] at hg
          simp [hg.1]
      · exact rest _ h
    | KeyBackspace =>
      rw [hk] at h
      simp only at h
      split_ifs at h with hg
      · simp only [Option.some.injEq, Prod.mk.injEq] at h
        obtain ⟨hm, _⟩ := h
        subst hm
        simp
      · exact rest _ h
  | ErrorOccuredMsg e => exact rest _ h
  | pasteMsg t => exact rest _ h
  | pasteErrMsg => exact rest _ h
  | other t c => exact rest _ h

/-- In every model reached from `NewPillInputModel L S` the stored source is
`S`, and a hidden pill goes with an empty field. -/
theorem run_invariant (L : Lib) (S : List Str) (msgs : List Msg) (m : PillInputModel)
    (h : PillInputModel.run L (NewPillInputModel L S) msgs = some m) :
    m.suggestions = S ∧ (m.isPillVisible = false → m.filterField = []) := by
  have gen : ∀ (msgs : List Msg) (m0 m : PillInputModel),
      PillInputModel.run L m0 msgs = some m →
      (m0.suggestions = S ∧ (m0.isPillVisible = false → m0.filterField = [])) →
      (m.suggestions = S ∧ (m.isPillVisible = false → m.filterField = [])) := by
    intro msgs
    induction msgs with
    | nil =>
      intro m0 m hr h0
      simp only [PillInputModel.run, Option.some.injEq] at hr
      subst hr
      exact h0
    | cons msg rest ih =>
      intro m0 m hr h0
      simp only [PillInputModel.run] at hr
      cases hu : PillInputModel.Update L m0 msg with
      | none => rw [hu] at hr; simp at hr
      | some x =>
        obtain ⟨m1, c⟩ := x
        rw [hu] at hr
        simp only at hr
        apply ih m1 m hr
        obtain ⟨hs, hc⟩ := Update_cases L m0 m1 msg c hu
        refine ⟨hs.trans h0.1, ?_⟩
        intro hv
        rcases hc with ⟨hf, hp⟩ | ⟨hp, _⟩ | ⟨_, hf⟩
        · rw [hf]; exact h0.2 (hp ▸ hv)
        · rw [hp] at hv; simp at hv
        · exact hf
  exact gen msgs (NewPillInputModel L S) m h (by simp [NewPillInputModel])

/-! ## Sequences of messages -/

theorem run_append (L : Lib) (m : PillInputModel) (xs ys : List Msg) :
    PillInputModel.run L m (xs ++ ys)
      = (PillInputModel.run L m xs).bind (fun m1 => PillInputModel.run L m1 ys) := by
  induction xs generalizing m with
  | nil => simp [PillInputModel.run]
  | cons x xs ih =>
    simp only [List.cons_append, PillInputModel.run]
    cases PillInputModel.Update L m x with
    | none => simp
    | some r => simp [ih]

/-- As many Backspace keys as characters typed in the value-entry phase
give back the buffer from before. -/
theorem run_valueState_backspaces (L : Lib) (S : List Str) (f : Str) (w v : Str) :
    PillInputModel.run L (valueState S f (v ++ w)) (List.replicate w.length backspaceKey)
      = some (valueState S f v) := by
  induction w using List.reverseRecOn with
  | nil => simp [PillInputModel.run]
  | append_singleton w c ih =>
    rw [List.length_append, List.length_singleton, List.replicate_succ,
      PillInputModel.run, ← List.append_assoc, Update_valueState_backspace]
    exact ih

theorem selection_eq_of_find (L : Lib) (S : List Str) (p f : Str) (hne : p ≠ [])
    (hf : S.find? (fun s => (p.map L.lower).isPrefixOf (s.map L.lower)) = some f) :
    selection L S p = f := by
  simp [selection, hne, matchesOf, List.filter_head?, hf]

/-- What the Backspace transition leaves: pill hidden, field cleared, the
sanitized text of the field in the buffer with the cursor at its end,
suggestions on and set from the stored source. -/
theorem Update_backspace_empty_spec (L : Lib) (m : PillInputModel)
    (hv : m.isPillVisible = true) (he : textinput.Value m.textInput = []) :
    ∃ m1 : PillInputModel,
      PillInputModel.Update L m backspaceKey = some (m1, []) ∧
      m1.isPillVisible = false ∧
      m1.Value = ([], textinput.Sanitize m.filterField) ∧
      ((∀ c ∈ m.filterField, printable c) → m1.Value = ([], m.filterField)) ∧
      m1.textInput.pos = (textinput.Value m1.textInput).length ∧
      m1.textInput.ShowSuggestions = true ∧
      textinput.AvailableSuggestions m1.textInput = m.suggestions ∧
      (∀ (S : List Str) (msgs : List Msg),
        PillInputModel.run L (NewPillInputModel L S) msgs = some m →
        textinput.AvailableSuggestions m1.textInput = S) := by
  have hfields := updateSuggestions_fields L
    { m.textInput with
      value := textinput.Sanitize m.filterField
      pos := (textinput.Sanitize m.filterField).length
      ShowSuggestions := true
      suggestions := m.suggestions }
  dsimp only at hfields
  obtain ⟨h1, h2, _, _, h5, h6⟩ := hfields
  refine ⟨_, Update_backspace_empty L m hv he, rfl, ?_, ?_, ?_, ?_, ?_, ?_⟩
  · dsimp only [PillInputModel.Value, textinput.Value]
    rw [h1]
  · intro hp
    dsimp only [PillInputModel.Value, textinput.Value]
    rw [h1, Sanitize_printable _ hp]
  · dsimp only [textinput.Value]
    rw [h1, h2]
  · dsimp only
    rw [h5]
  · dsimp only [textinput.AvailableSuggestions]
    rw [h6]
  · intro S msgs hr
    dsimp only [textinput.AvailableSuggestions]
    rw [h6, (run_invariant L S msgs m hr).1]

/-! ## Claims on the pill input -/

/-- Claim C1, as stated, fails: over the source Level, level the typed text
lev is a prefix of the second entry only, yet Tab selects the first entry,
because the text input matches suggestions without regard to letter case. -/
theorem C1_counterexample :
    ["Level".toList, "level".toList].Nodup ∧
    (∀ c ∈ "lev".toList, printable c) ∧
    ["Level".toList, "level".toList].find? (fun s => "lev".toList.isPrefixOf s)
      = some "level".toList ∧
    (PillInputModel.run asciiLib
        (NewPillInputModel asciiLib ["Level".toList, "level".toList])
        (typed "lev".toList ++ [tabKey])).map PillInputModel.Value
      = some ("Level".toList, []) := by
  decide

/-- Claim C1, amended: for every source `S` and every non-empty string `p` of
printable characters such that `f` is the first entry of `S` whose lower-cased
text starts with the lower-cased `p`, typing `p` into `NewPillInputModel S`
one character at a time and then pressing Tab returns, with the nil command,
a model whose `Value()` is `(f, "")`, whose pill is visible, and whose text
input has suggestions switched off and holds no suggestion. -/
theorem C1_tab_selects_first_match (L : Lib) (S : List Str) (p f : Str)
    (hne : p ≠ []) (hp : ∀ c ∈ p, printable c)
    (hf : S.find? (fun s => (p.map L.lower).isPrefixOf (s.map L.lower)) = some f) :
    ∃ m0 m : PillInputModel,
      PillInputModel.run L (NewPillInputModel L S) (typed p) = some m0 ∧
      PillInputModel.Update L m0 tabKey = some (m, []) ∧
      m.Value = (f, []) ∧
      m.isPillVisible = true ∧
      m.textInput.ShowSuggestions = false ∧
      textinput.AvailableSuggestions m.textInput = [] ∧
      textinput.MatchedSuggestions m.textInput = [] := by
  have hS : S ≠ [] := by
    intro h
    rw [h] at hf
    simp at hf
  refine ⟨fieldState L S p, valueState S (selection L S p) [], ?_, ?_, ?_, rfl, rfl, rfl, rfl⟩
  · rw [NewPillInputModel_eq, run_fieldState_typed L S p [] hp, List.nil_append]
  · exact Update_fieldState_tab L S p hS
  · rw [selection_eq_of_find L S p f hne hf]
    rfl

/-- Claim C1, amended, at the input of the test `TestPillInputModelUpdateTabKey`. -/
theorem C1_tab_selects_first_match_witness :
    ∃ m0 m : PillInputModel,
      PillInputModel.run asciiLib
        (NewPillInputModel asciiLib ["level".toList, "message".toList, "timestamp".toList])
        (typed "lev".toList) = some m0 ∧
      PillInputModel.Update asciiLib m0 tabKey = some (m, []) ∧
      m.Value = ("level".toList, []) ∧
      m.isPillVisible = true ∧
      m.textInput.ShowSuggestions = false ∧
      textinput.AvailableSuggestions m.textInput = [] ∧
      textinput.MatchedSuggestions m.textInput = [] :=
  C1_tab_selects_first_match asciiLib
    ["level".toList, "message".toList, "timestamp".toList] "lev".toList "level".toList
    (by decide) (by decide) (by decide)

/-- Claim C2, as stated, fails: with the selected field a, tab, b (a field
name of the source) and an empty buffer, Backspace puts a, space, b into the
buffer, not the field itself, because `SetValue` sanitizes its argument. -/
theorem C2_counterexample :
    (PillInputModel.run asciiLib
        (NewPillInputModel asciiLib [['a', Char.ofNat 9, 'b']])
        (typed ['a'] ++ [tabKey])).map (fun m => (m.isPillVisible, m.Value))
      = some (true, (['a', Char.ofNat 9, 'b'], [])) ∧
    (PillInputModel.run asciiLib
        (NewPillInputModel asciiLib [['a', Char.ofNat 9, 'b']])
        (typed ['a'] ++ [tabKey, backspaceKey])).map PillInputModel.Value
      = some ([], ['a', Char.ofNat 32, 'b']) := by
  decide

/-- Claim C2, amended: for every model with the pill visible, selected field
`f` and an empty buffer, `Update` with Backspace returns, with the nil
command, a model with the pill hidden and the field cleared whose buffer is
the sanitized text of `f` with the cursor at its end, so that `Value()` is
`("", f)` whenever `f` is made of printable characters; suggestions are
switched on again and the text input holds the stored source, which is the
list given to `NewPillInputModel` when the model was reached from it. -/
theorem C2_backspace_returns_field (L : Lib) (m : PillInputModel)
    (hv : m.isPillVisible = true) (he : textinput.Value m.textInput = []) :
    ∃ m1 : PillInputModel,
      PillInputModel.Update L m backspaceKey = some (m1, []) ∧
      m1.isPillVisible = false ∧
      m1.Value = ([], textinput.Sanitize m.filterField) ∧
      ((∀ c ∈ m.filterField, printable c) → m1.Value = ([], m.filterField)) ∧
      m1.textInput.pos = (textinput.Value m1.textInput).length ∧
      m1.textInput.ShowSuggestions = true ∧
      textinput.AvailableSuggestions m1.textInput = m.suggestions ∧
      (∀ (S : List Str) (msgs : List Msg),
        PillInputModel.run L (NewPillInputModel L S) msgs = some m →
        textinput.AvailableSuggestions m1.textInput = S) :=
  Update_backspace_empty_spec L m hv he

/-- Claim C2, amended, at the input of the test
`TestPillInputModelUpdateBackspace`: field level selected, buffer empty. -/
theorem C2_backspace_returns_field_witness :
    ∃ m1 : PillInputModel,
      PillInputModel.Update asciiLib
        (valueState ["level".toList, "message".toList] "level".toList []) backspaceKey
        = some (m1, []) ∧
      m1.isPillVisible = false ∧
      m1.Value = ([], "level".toList) :=
  (C2_backspace_returns_field asciiLib
      (valueState ["level".toList, "message".toList] "level".toList []) rfl rfl).imp
    (fun _ h => ⟨h.1, h.2.1, h.2.2.2.1 (by decide)⟩)

/-- Claim C3 at its failing input: over the source level (one non-empty
name), the key x followed by Tab shows the pill with an empty field, because
the guard of the Tab case tests `AvailableSuggestions`, the whole list, and
`CurrentSuggestion` is the empty string when nothing matches. -/
theorem C3_failing_input :
    (PillInputModel.run asciiLib (NewPillInputModel asciiLib ["level".toList])
        (typed "x".toList ++ [tabKey])).map (fun m => (m.isPillVisible, m.filterField))
      = some (true, []) := by
  decide

/-- Claim C4, as stated, fails: over the source Level, message the typed
text lev is a prefix of no entry, yet Level is a matched suggestion; and
before anything is typed no suggestion is matched, though every entry starts
with the empty string. -/
theorem C4_counterexample :
    (∀ c ∈ "lev".toList, printable c) ∧
    ["Level".toList, "message".toList].filter (fun s => "lev".toList.isPrefixOf s) = [] ∧
    (PillInputModel.run asciiLib
        (NewPillInputModel asciiLib ["Level".toList, "message".toList])
        (typed "lev".toList)).map (fun m => textinput.MatchedSuggestions m.textInput)
      = some ["Level".toList] ∧
    ["Level".toList, "message".toList].filter (fun s => ([] : Str).isPrefixOf s)
      = ["Level".toList, "message".toList] ∧
    (PillInputModel.run asciiLib
        (NewPillInputModel asciiLib ["Level".toList, "message".toList])
        (typed [])).map (fun m => textinput.MatchedSuggestions m.textInput)
      = some [] := by
  decide

/-- Claim C4, amended: for every source `S` and every string `p` of printable
characters typed one at a time into `NewPillInputModel S`, the model stays in
the field-selection phase with buffer `p`, and its matched suggestions are,
when `p` is not empty, exactly the entries of `S` whose lower-cased text
starts with the lower-cased `p`, in the order of `S`, and none when `p` is
empty. -/
theorem C4_matched_suggestions (L : Lib) (S : List Str) (p : Str)
    (hp : ∀ c ∈ p, printable c) :
    ∃ m : PillInputModel,
      PillInputModel.run L (NewPillInputModel L S) (typed p) = some m ∧
      m.isPillVisible = false ∧
      m.Value = ([], p) ∧
      textinput.MatchedSuggestions m.textInput
        = (if p = [] then []
           else S.filter (fun s => (p.map L.lower).isPrefixOf (s.map L.lower))) ∧
      (textinput.MatchedSuggestions m.textInput).Sublist S := by
  refine ⟨fieldState L S p, ?_, rfl, rfl, rfl, ?_⟩
  · rw [NewPillInputModel_eq, run_fieldState_typed L S p [] hp, List.nil_append]
  · simp only [textinput.MatchedSuggestions, fieldState, matchesOf]
    split_ifs
    · exact List.nil_sublist S
    · exact List.filter_sublist S

/-- Claim C4, amended, on the scenario of the specification: typing lev over
level, message, timestamp leaves level as the one matched suggestion. -/
theorem C4_matched_suggestions_witness :
    ∃ m : PillInputModel,
      PillInputModel.run asciiLib
        (NewPillInputModel asciiLib ["level".toList, "message".toList, "timestamp".toList])
        (typed "lev".toList) = some m ∧
      textinput.MatchedSuggestions m.textInput = ["level".toList] :=
  (C4_matched_suggestions asciiLib
      ["level".toList, "message".toList, "timestamp".toList] "lev".toList (by decide)).imp
    (fun _ h => ⟨h.1, h.2.2.2.1.trans (by decide)⟩)

/-- Claim C5 at its failing input: over the source level, after the key x
the model is in the field-selection phase with buffer x, which is a prefix
of no entry; Tab then shows the pill and empties the buffer. -/
theorem C5_failing_input :
    (PillInputModel.run asciiLib (NewPillInputModel asciiLib ["level".toList])
        (typed "x".toList)).map
        (fun m => (m.isPillVisible, m.Value, textinput.MatchedSuggestions m.textInput))
      = some (false, ([], "x".toList), []) ∧
    ["level".toList].all (fun s => !("x".toList.isPrefixOf s)) = true ∧
    (PillInputModel.run asciiLib (NewPillInputModel asciiLib ["level".toList])
        (typed "x".toList ++ [tabKey])).map (fun m => (m.isPillVisible, m.Value))
      = some (true, ([], [])) := by
  decide

/-- Claim C9, as stated, fails: with the field a, tab, b selected by Tab and
the key x typed, one Backspace leaves the field with an empty buffer and the
pill visible, and one more Backspace puts a, space, b into the buffer, not
the field itself. -/
theorem C9_counterexample :
    (PillInputModel.run asciiLib
        (NewPillInputModel asciiLib [['a', Char.ofNat 9, 'b']])
        (typed ['a'] ++ [tabKey] ++ typed ['x'] ++ [backspaceKey])).map
        (fun m => (m.isPillVisible, m.Value))
      = some (true, (['a', Char.ofNat 9, 'b'], [])) ∧
    (PillInputModel.run asciiLib
        (NewPillInputModel asciiLib [['a', Char.ofNat 9, 'b']])
        (typed ['a'] ++ [tabKey] ++ typed ['x'] ++ [backspaceKey, backspaceKey])).map
        (fun m => (m.isPillVisible, m.Value))
      = some (false, ([], ['a', Char.ofNat 32, 'b'])) := by
  decide

/-- Claim C9, amended: for every non-empty source `S`, every string `q` of
printable characters typed before Tab, with `f` the field that Tab selects,
and every string `w` of `n` printable characters typed after it: after `n`
Backspace keys `Value()` is `(f, "")` with the pill visible, and one more
Backspace hides the pill and leaves `Value()` equal to `("", f)` with `f`
sanitized, which is `f` itself when `f` is made of printable characters. -/
theorem C9_backspace_all_the_way (L : Lib) (S : List Str) (q w : Str)
    (hS : S ≠ []) (hq : ∀ c ∈ q, printable c) (hw : ∀ c ∈ w, printable c) :
    ∃ m1 m2 : PillInputModel,
      PillInputModel.run L (NewPillInputModel L S)
          (typed q ++ [tabKey] ++ typed w ++ List.replicate w.length backspaceKey)
        = some m1 ∧
      m1.Value = (selection L S q, []) ∧
      m1.isPillVisible = true ∧
      PillInputModel.run L (NewPillInputModel L S)
          (typed q ++ [tabKey] ++ typed w ++ List.replicate w.length backspaceKey
            ++ [backspaceKey])
        = some m2 ∧
      m2.Value = ([], textinput.Sanitize (selection L S q)) ∧
      ((∀ c ∈ selection L S q, printable c) → m2.Value = ([], selection L S q)) ∧
      m2.isPillVisible = false := by
  have hrun : PillInputModel.run L (NewPillInputModel L S)
      (typed q ++ [tabKey] ++ typed w ++ List.replicate w.length backspaceKey)
        = some (valueState S (selection L S q) []) := by
    rw [run_append, run_append, run_append, NewPillInputModel_eq,
      run_fieldState_typed L S q [] hq, List.nil_append]
    simp only [Option.some_bind, PillInputModel.run, Update_fieldState_tab L S q hS]
    rw [run_valueState_typed L S _ w [] hw]
    simp only [Option.some_bind]
    exact run_valueState_backspaces L S _ w []
  obtain ⟨m2, h2, hvis, hval, hprint, _⟩ :=
    Update_backspace_empty_spec L (valueState S (selection L S q) []) rfl rfl
  refine ⟨_, m2, hrun, rfl, rfl, ?_, hval, hprint, hvis⟩
  rw [run_append, hrun]
  simp only [Option.some_bind, PillInputModel.run, h2]

/-- Claim C9, amended, on the scenario of the specification: level, message,
timestamp; lev, Tab, err, then Backspace three times and once more. -/
theorem C9_backspace_all_the_way_witness :
    ∃ m1 m2 : PillInputModel,
      PillInputModel.run asciiLib
          (NewPillInputModel asciiLib ["level".toList, "message".toList, "timestamp".toList])
          (typed "lev".toList ++ [tabKey] ++ typed "err".toList
            ++ List.replicate "err".toList.length backspaceKey)
        = some m1 ∧
      m1.Value = ("level".toList, []) ∧
      m1.isPillVisible = true ∧
      PillInputModel.run asciiLib
          (NewPillInputModel asciiLib ["level".toList, "message".toList, "timestamp".toList])
          (typed "lev".toList ++ [tabKey] ++ typed "err".toList
            ++ List.replicate "err".toList.length backspaceKey ++ [backspaceKey])
        = some m2 ∧
      m2.Value = ([], "level".toList) ∧
      m2.isPillVisible = false := by
  have hsel : selection asciiLib ["level".toList, "message".toList, "timestamp".toList]
      "lev".toList = "level".toList := by decide
  obtain ⟨m1, m2, h1, h2, h3, h4, _, h6, h7⟩ :=
    C9_backspace_all_the_way asciiLib ["level".toList, "message".toList, "timestamp".toList]
      "lev".toList "err".toList (by decide) (by decide) (by decide)
  rw [hsel] at h2 h6
  exact ⟨m1, m2, h1, h2, h3, h4, h6 (by decide), h7⟩

/-- Claim C10, as stated, fails: right after `NewPillInputModel` over the
source level the text input holds the list, but no suggestion is matched. -/
theorem C10_counterexample :
    textinput.MatchedSuggestions (NewPillInputModel asciiLib ["level".toList]).textInput = [] ∧
    textinput.MatchedSuggestions (NewPillInputModel asciiLib ["level".toList]).textInput
      ≠ ["level".toList] := by
  decide

/-- Claim C10, amended: for every list `S`, `NewPillInputModel S` is in the
field-selection phase with an empty buffer and no selected field (`Value()`
is `("", "")`, `isPillVisible` is false), suggestions are switched on, the
suggestion list of its text input and its stored source are `S` itself, in
the same order, and no suggestion is matched yet. -/
theorem C10_new_model (L : Lib) (S : List Str) :
    (NewPillInputModel L S).Value = ([], []) ∧
    (NewPillInputModel L S).isPillVisible = false ∧
    (NewPillInputModel L S).filterField = [] ∧
    (NewPillInputModel L S).textInput.ShowSuggestions = true ∧
    textinput.AvailableSuggestions (NewPillInputModel L S).textInput = S ∧
    (NewPillInputModel L S).suggestions = S ∧
    textinput.MatchedSuggestions (NewPillInputModel L S).textInput = [] := by
  rw [NewPillInputModel_eq]
  exact ⟨rfl, rfl, rfl, rfl, rfl, rfl, rfl⟩

/-! ## Claims on the filtering state -/

section app

variable {A Lv T F M C : Type}

/-- A step that stays in the filtering state keeps the previous state and
the bindings. -/
theorem Update_filtering_frame (L : Lib) (E : App A Lv T F M C) (app app1 : A)
    (s s1 : StateFilteringModel Lv T) (msg : Msg) (cmd : List (Cmd C))
    (h : StateFilteringModel.Update L E app s msg = some (app1, Next.filtering s1, cmd)) :
    s1.previousState = s.previousState ∧ s1.keys = s.keys := by
  have input : ∀ (s0 : StateFilteringModel Lv T) (cb : List (Cmd C)),
      (match PillInputModel.Update L s0.textInput msg with
        | none => none
        | some (ti, c) =>
          some (E.Update app msg, Next.filtering { s0 with textInput := ti },
            cb ++ c.map Cmd.input)) =
        (some (app1, Next.filtering s1, cmd) : Option (A × Next Lv T M × List (Cmd C))) →
      s1.previousState = s0.previousState ∧ s1.keys = s0.keys := by
    intro s0 cb h0
    cases hu : PillInputModel.Update L s0.textInput msg with
    | none => rw [hu] at h0; simp at h0
    | some x =>
      obtain ⟨ti, c⟩ := x
      rw [hu] at h0
      simp only [Option.some.injEq, Prod.mk.injEq, Next.filtering.injEq] at h0
      obtain ⟨_, hs, _⟩ := h0
      subst hs
      exact ⟨rfl, rfl⟩
  unfold StateFilteringModel.Update at h
  cases msg with
  | ErrorOccuredMsg e => simp at h
  | KeyMsg k =>
    simp only at h
    cases hk : StateFilteringModel.handleKeyMsg E (E.Update app (Msg.KeyMsg k)) s k with
    | none => rw [hk] at h; exact input s [] h
    | some x =>
      obtain ⟨mdl, c⟩ := x
      rw [hk] at h
      simp only [Option.some.injEq, Prod.mk.injEq] at h
      obtain ⟨_, hm, _⟩ := h
      subst hm
      unfold StateFilteringModel.handleKeyMsg at hk
      split_ifs at hk with h1 h2
      · simp at hk
      · unfold StateFilteringModel.handleEnterKeyClickedMsg at hk
        simp only [Option.some.injEq] at hk
        split_ifs at hk
        · simp only [Prod.mk.injEq, Next.filtering.injEq] at hk
          rw [← hk.1]
          exact ⟨rfl, rfl⟩
        · simp at hk
  | pasteMsg t =>
    simp only at h
    exact input { s with table := (E.tableUpdate s.table (Msg.pasteMsg t)).1 } _ h
  | pasteErrMsg =>
    simp only at h
    exact input { s with table := (E.tableUpdate s.table Msg.pasteErrMsg).1 } _ h
  | other t c =>
    simp only at h
    exact input { s with table := (E.tableUpdate s.table (Msg.other t c)).1 } _ h

/-- Every run that stays in the filtering state keeps the previous state
and the bindings. -/
theorem runFiltering_frame (L : Lib) (E : App A Lv T F M C) (msgs : List Msg)
    (app0 app : A) (s0 s : StateFilteringModel Lv T)
    (h : StateFilteringModel.runFiltering L E app0 s0 msgs = some (app, s)) :
    s.previousState = s0.previousState ∧ s.keys = s0.keys := by
  induction msgs generalizing app0 s0 with
  | nil =>
    simp only [StateFilteringModel.runFiltering, Option.some.injEq, Prod.mk.injEq] at h
    rw [← h.2]
    exact ⟨rfl, rfl⟩
  | cons msg rest ih =>
    simp only [StateFilteringModel.runFiltering] at h
    cases hu : StateFilteringModel.Update L E app0 s0 msg with
    | none => rw [hu] at h; simp at h
    | some x =>
      obtain ⟨app1, nx, c⟩ := x
      rw [hu] at h
      cases nx with
      | leave m => simp at h
      | filtering s1 =>
        simp only at h
        obtain ⟨hp, hk⟩ := Update_filtering_frame L E app0 app1 s0 s1 msg c hu
        obtain ⟨hp2, hk2⟩ := ih app1 s1 h
        exact ⟨hp2.trans hp, hk2.trans hk⟩

/-- Claim C6: for every filtering state whose input buffer is empty, with or
without a selected field, `handleEnterKeyClickedMsg` returns the state itself
(same table, previous state and input) with the command
`events.EscKeyClicked` and no model of another state; and so does `Update`
on every key that matches `Open` and is not taken as `Back`. -/
theorem C6_empty_term_cancels (L : Lib) (E : App A Lv T F M C) (app : A)
    (s : StateFilteringModel Lv T) (he : s.textInput.Value.2 = []) :
    StateFilteringModel.handleEnterKeyClickedMsg E app s
      = (Next.filtering s, [Cmd.EscKeyClicked]) ∧
    (∀ (m : M) (c : List (Cmd C)),
      StateFilteringModel.handleEnterKeyClickedMsg E app s ≠ (Next.leave m, c)) ∧
    (∀ k : Key, Matches k s.keys.Open = true →
      (Matches k s.keys.Back && decide (k.Runes ≠ "q".toList)) = false →
      StateFilteringModel.Update L E app s (Msg.KeyMsg k)
        = some (E.Update app (Msg.KeyMsg k), Next.filtering s, [Cmd.EscKeyClicked])) := by
  have h1 : ∀ a : A, StateFilteringModel.handleEnterKeyClickedMsg E a s
      = (Next.filtering s, [Cmd.EscKeyClicked]) := by
    intro a
    simp only [PillInputModel.Value] at he
    simp [StateFilteringModel.handleEnterKeyClickedMsg, PillInputModel.Value, he]
  refine ⟨h1 app, ?_, ?_⟩
  · intro m c
    rw [h1 app]
    simp
  · intro k hopen hback
    simp only [StateFilteringModel.Update, StateFilteringModel.handleKeyMsg, hopen, hback, h1]
    simp

/-- Claim C6 with the field level selected and an empty buffer: Enter gives
back the same filtering state with the escape command. -/
theorem C6_empty_term_cancels_witness :
    StateFilteringModel.Update asciiLib sampleApp 0
        { newStateFiltering asciiLib sampleApp 0 ["level".toList] with
          textInput := valueState ["level".toList] "level".toList [] }
        (Msg.KeyMsg (namedKey "enter"))
      = some (1,
          Next.filtering
            { newStateFiltering asciiLib sampleApp 0 ["level".toList] with
              textInput := valueState ["level".toList] "level".toList [] },
          [Cmd.EscKeyClicked]) :=
  (C6_empty_term_cancels asciiLib sampleApp 0
      { newStateFiltering asciiLib sampleApp 0 ["level".toList] with
        textInput := valueState ["level".toList] "level".toList [] } rfl).2.2
    (namedKey "enter") (by decide) (by decide)

/-- Claim C7: for every filtering state whose input `Value()` is
`(field, term)` with `term` non-empty, `handleEnterKeyClickedMsg`, and
`Update` on every key that matches `Open` and is not taken as `Back`, return
`initializeModel(newStateFiltered(previousState, term, field))` for the
stored previous state; the result depends on the input through this pair
only, and the field is the empty string when the pill of an input reached
from `NewPillInputModel` is hidden. -/
theorem C7_commit_carries_field_and_term (L : Lib) (E : App A Lv T F M C) (app : A)
    (s : StateFilteringModel Lv T) (field term : Str)
    (hval : s.textInput.Value = (field, term)) (hne : term ≠ []) :
    StateFilteringModel.handleEnterKeyClickedMsg E app s
      = (Next.leave (E.initializeModel (E.newStateFiltered app s.previousState term field)).1,
         (E.initializeModel (E.newStateFiltered app s.previousState term field)).2) ∧
    (∀ k : Key, Matches k s.keys.Open = true →
      (Matches k s.keys.Back && decide (k.Runes ≠ "q".toList)) = false →
      StateFilteringModel.Update L E app s (Msg.KeyMsg k)
        = some (E.Update app (Msg.KeyMsg k),
            Next.leave (E.initializeModel (E.newStateFiltered (E.Update app (Msg.KeyMsg k))
              s.previousState term field)).1,
            (E.initializeModel (E.newStateFiltered (E.Update app (Msg.KeyMsg k))
              s.previousState term field)).2)) ∧
    (∀ s2 : StateFilteringModel Lv T, s2.previousState = s.previousState →
      s2.textInput.Value = s.textInput.Value →
      StateFilteringModel.handleEnterKeyClickedMsg E app s2
        = StateFilteringModel.handleEnterKeyClickedMsg E app s) ∧
    (∀ (S : List Str) (msgs : List Msg),
      PillInputModel.run L (NewPillInputModel L S) msgs = some s.textInput →
      s.textInput.isPillVisible = false → field = []) := by
  have h1 : ∀ a : A, StateFilteringModel.handleEnterKeyClickedMsg E a s
      = (Next.leave (E.initializeModel (E.newStateFiltered a s.previousState term field)).1,
         (E.initializeModel (E.newStateFiltered a s.previousState term field)).2) := by
    intro a
    simp [StateFilteringModel.handleEnterKeyClickedMsg, hval, hne]
  refine ⟨h1 app, ?_, ?_, ?_⟩
  · intro k hopen hback
    simp only [StateFilteringModel.Update, StateFilteringModel.handleKeyMsg, hopen, hback, h1]
    simp
  · intro s2 hp hv
    rw [h1 app]
    simp [StateFilteringModel.handleEnterKeyClickedMsg, hv, hp, hval, hne]
  · intro S msgs hr hvis
    have hf := (run_invariant L S msgs s.textInput hr).2 hvis
    simp only [PillInputModel.Value, Prod.mk.injEq] at hval
    rw [← hval.1, hf]

/-- Claim C7 with the field level selected and the term err typed: Enter
leaves for the filtered state built from the previous state, err and level. -/
theorem C7_commit_carries_field_and_term_witness :
    StateFilteringModel.Update asciiLib sampleApp 0
        { newStateFiltering asciiLib sampleApp 0 ["level".toList] with
          textInput := valueState ["level".toList] "level".toList "err".toList }
        (Msg.KeyMsg (namedKey "enter"))
      = some (1, Next.leave (some (["level".toList], "err".toList, "level".toList)),
          [Cmd.ext 1]) :=
  (C7_commit_carries_field_and_term asciiLib sampleApp 0
      { newStateFiltering asciiLib sampleApp 0 ["level".toList] with
        textInput := valueState ["level".toList] "level".toList "err".toList }
      "level".toList "err".toList rfl (by decide)).2.1
    (namedKey "enter") (by decide) (by decide)

/-- Claim C8: for every loaded state `prev` and every sequence of messages
that `Update` handles from `newStateFiltering(prev)` while staying in the
filtering state, the stored previous state is still `prev` (so is its table)
and the bindings are those read at the start; a following key that matches
`Back` and whose runes are not q makes `Update` return `prev.refresh()`. -/
theorem C8_back_returns_previous (L : Lib) (E : App A Lv T F M C) (app0 app : A)
    (prev : Lv) (msgs : List Msg) (s : StateFilteringModel Lv T) (k : Key)
    (hrun : StateFilteringModel.runFiltering L E app0 (newStateFiltering L E app0 prev) msgs
      = some (app, s))
    (hback : Matches k (E.keys app0 prev).Back = true) (hq : k.Runes ≠ "q".toList) :
    s.previousState = prev ∧
    E.table s.previousState = E.table prev ∧
    s.keys = E.keys app0 prev ∧
    StateFilteringModel.Update L E app s (Msg.KeyMsg k)
      = some (E.Update app (Msg.KeyMsg k),
          Next.leave (E.refresh (E.Update app (Msg.KeyMsg k)) prev).1,
          (E.refresh (E.Update app (Msg.KeyMsg k)) prev).2) := by
  obtain ⟨hp, hk⟩ := runFiltering_frame L E msgs app0 app _ s hrun
  have hp1 : s.previousState = prev := hp
  have hk1 : s.keys = E.keys app0 prev := hk
  refine ⟨hp1, by rw [hp1], hk1, ?_⟩
  have hq1 : ¬ (k.Runes = ['q']) := hq
  simp [StateFilteringModel.Update, StateFilteringModel.handleKeyMsg, hk1, hback, hq1, hp1]

/-- Claim C8 on a run: typing le, Tab, a resize and x over the loaded state
with the fields level, message, then Esc. -/
theorem C8_back_returns_previous_witness :
    ∃ (app : Nat) (s : StateFilteringModel (List Str) Nat),
      StateFilteringModel.runFiltering asciiLib sampleApp 0
          (newStateFiltering asciiLib sampleApp 0 ["level".toList, "message".toList])
          (typed "le".toList ++ [tabKey, Msg.other 0 false] ++ typed "x".toList)
        = some (app, s) ∧
      s.previousState = ["level".toList, "message".toList] ∧
      StateFilteringModel.Update asciiLib sampleApp app s (Msg.KeyMsg (namedKey "esc"))
        = some (app + 1, Next.leave none, [Cmd.ext 0]) := by
  have h : ∃ (app : Nat) (s : StateFilteringModel (List Str) Nat),
      StateFilteringModel.runFiltering asciiLib sampleApp 0
          (newStateFiltering asciiLib sampleApp 0 ["level".toList, "message".toList])
          (typed "le".toList ++ [tabKey, Msg.other 0 false] ++ typed "x".toList)
        = some (app, s) := ⟨_, _, rfl⟩
  obtain ⟨app, s, hrun⟩ := h
  have h8 := C8_back_returns_previous asciiLib sampleApp 0 app
    ["level".toList, "message".toList] _ s (namedKey "esc") hrun (by decide) (by decide)
  exact ⟨app, s, hrun, h8.1, h8.2.2.2⟩

end app

/-! ## What the text input leaves alone -/

theorem sameFlags_refl (m : textinput.Model) : sameFlags m m := ⟨rfl, rfl, rfl, rfl⟩

theorem sameFlags_trans (a b c : textinput.Model) (h1 : sameFlags a b) (h2 : sameFlags b c) :
    sameFlags a c :=
  ⟨h2.1.trans h1.1, h2.2.1.trans h1.2.1, h2.2.2.1.trans h1.2.2.1, h2.2.2.2.trans h1.2.2.2⟩

theorem sameFlags_SetCursor (m : textinput.Model) (n : Nat) :
    sameFlags m (textinput.SetCursor m n) := ⟨rfl, rfl, rfl, rfl⟩

theorem sameFlags_setValueInternal (m : textinput.Model) (v : Str) :
    sameFlags m (textinput.setValueInternal m v) := by
  unfold textinput.setValueInternal
  simp only
  split_ifs <;> exact ⟨rfl, rfl, rfl, rfl⟩

theorem sameFlags_insertRunes (m : textinput.Model) (v : Str) :
    sameFlags m (textinput.insertRunesFromUserInput m v) := by
  unfold textinput.insertRunesFromUserInput
  exact sameFlags_setValueInternal _ _

set_option linter.unreachableTactic false
set_option linter.unusedTactic false

/-- Case analysis on a conditional that returns a given value. -/
theorem ite_some_elim {α : Type} {P : Prop} (c : Prop) [Decidable c] (a b : Option α)
    (x : α) (h : (if c then a else b) = some x)
    (ha : a = some x → P) (hb : b = some x → P) : P := by
  by_cases hc : c
  · rw [if_pos hc] at h; exact ha h
  · rw [if_neg hc] at h; exact hb h

/-- No case of the key switch assigns the focus, the suggestion flag, the
suggestions or the matches. -/
theorem sameFlags_handleKey (L : Lib) (m m1 : textinput.Model) (k : Key)
    (h : textinput.handleKey L m k = some m1) : sameFlags m m1 := by
  unfold textinput.handleKey at h
  refine ite_some_elim _ _ _ _ h (fun h => ?_) (fun h => ?_)
  · try dsimp only at h
    first | (split_ifs at h <;> (first | (injection h with h; subst h; first | exact ⟨rfl, rfl, rfl, rfl⟩ | exact sameFlags_insertRunes _ _) | (injection h))) | (first | (injection h with h; subst h; first | exact ⟨rfl, rfl, rfl, rfl⟩ | exact sameFlags_insertRunes _ _) | (injection h))
  refine ite_some_elim _ _ _ _ h (fun h => ?_) (fun h => ?_)
  · try dsimp only at h
    first | (split_ifs at h <;> (first | (injection h with h; subst h; first | exact ⟨rfl, rfl, rfl, rfl⟩ | exact sameFlags_insertRunes _ _) | (injection h))) | (first | (injection h with h; subst h; first | exact ⟨rfl, rfl, rfl, rfl⟩ | exact sameFlags_insertRunes _ _) | (injection h))
  refine ite_some_elim _ _ _ _ h (fun h => ?_) (fun h => ?_)
  · try dsimp only at h
    first | (split_ifs at h <;> (first | (injection h with h; subst h; first | exact ⟨rfl, rfl, rfl, rfl⟩ | exact sameFlags_insertRunes _ _) | (injection h))) | (first | (injection h with h; subst h; first | exact ⟨rfl, rfl, rfl, rfl⟩ | exact sameFlags_insertRunes _ _) | (injection h))
  refine ite_some_elim _ _ _ _ h (fun h => ?_) (fun h => ?_)
  · try dsimp only at h
    first | (split_ifs at h <;> (first | (injection h with h; subst h; first | exact ⟨rfl, rfl, rfl, rfl⟩ | exact sameFlags_insertRunes _ _) | (injection h))) | (first | (injection h with h; subst h; first | exact ⟨rfl, rfl, rfl, rfl⟩ | exact sameFlags_insertRunes _ _) | (injection h))
  refine ite_some_elim _ _ _ _ h (fun h => ?_) (fun h => ?_)
  · try dsimp only at h
    first | (split_ifs at h <;> (first | (injection h with h; subst h; first | exact ⟨rfl, rfl, rfl, rfl⟩ | exact sameFlags_insertRunes _ _) | (injection h))) | (first | (injection h with h; subst h; first | exact ⟨rfl, rfl, rfl, rfl⟩ | exact sameFlags_insertRunes _ _) | (injection h))
  refine ite_some_elim _ _ _ _ h (fun h => ?_) (fun h => ?_)
  · try dsimp only at h
    first | (split_ifs at h <;> (first | (injection h with h; subst h; first | exact ⟨rfl, rfl, rfl, rfl⟩ | exact sameFlags_insertRunes _ _) | (injection h))) | (first | (injection h with h; subst h; first | exact ⟨rfl, rfl, rfl, rfl⟩ | exact sameFlags_insertRunes _ _) | (injection h))
  refine ite_some_elim _ _ _ _ h (fun h => ?_) (fun h => ?_)
  · try dsimp only at h
    first | (split_ifs at h <;> (first | (injection h with h; subst h; first | exact ⟨rfl, rfl, rfl, rfl⟩ | exact sameFlags_insertRunes _ _) | (injection h))) | (first | (injection h with h; subst h; first | exact ⟨rfl, rfl, rfl, rfl⟩ | exact sameFlags_insertRunes _ _) | (injection h))
  refine ite_some_elim _ _ _ _ h (fun h => ?_) (fun h => ?_)
  · try dsimp only at h
    first | (split_ifs at h <;> (first | (injection h with h; subst h; first | exact ⟨rfl, rfl, rfl, rfl⟩ | exact sameFlags_insertRunes _ _) | (injection h))) | (first | (injection h with h; subst h; first | exact ⟨rfl, rfl, rfl, rfl⟩ | exact sameFlags_insertRunes _ _) | (injection h))
  refine ite_some_elim _ _ _ _ h (fun h => ?_) (fun h => ?_)
  · try dsimp only at h
    first | (split_ifs at h <;> (first | (injection h with h; subst h; first | exact ⟨rfl, rfl, rfl, rfl⟩ | exact sameFlags_insertRunes _ _) | (injection h))) | (first | (injection h with h; subst h; first | exact ⟨rfl, rfl, rfl, rfl⟩ | exact sameFlags_insertRunes _ _) | (injection h))
  refine ite_some_elim _ _ _ _ h (fun h => ?_) (fun h => ?_)
  · try dsimp only at h
    first | (split_ifs at h <;> (first | (injection h with h; subst h; first | exact ⟨rfl, rfl, rfl, rfl⟩ | exact sameFlags_insertRunes _ _) | (injection h))) | (first | (injection h with h; subst h; first | exact ⟨rfl, rfl, rfl, rfl⟩ | exact sameFlags_insertRunes _ _) | (injection h))
  refine ite_some_elim _ _ _ _ h (fun h => ?_) (fun h => ?_)
  · try dsimp only at h
    first | (split_ifs at h <;> (first | (injection h with h; subst h; first | exact ⟨rfl, rfl, rfl, rfl⟩ | exact sameFlags_insertRunes _ _) | (injection h))) | (first | (injection h with h; subst h; first | exact ⟨rfl, rfl, rfl, rfl⟩ | exact sameFlags_insertRunes _ _) | (injection h))
  refine ite_some_elim _ _ _ _ h (fun h => ?_) (fun h => ?_)
  · try dsimp only at h
    first | (split_ifs at h <;> (first | (injection h with h; subst h; first | exact ⟨rfl, rfl, rfl, rfl⟩ | exact sameFlags_insertRunes _ _) | (injection h))) | (first | (injection h with h; subst h; first | exact ⟨rfl, rfl, rfl, rfl⟩ | exact sameFlags_insertRunes _ _) | (injection h))
  refine ite_some_elim _ _ _ _ h (fun h => ?_) (fun h => ?_)
  · try dsimp only at h
    first | (split_ifs at h <;> (first | (injection h with h; subst h; first | exact ⟨rfl, rfl, rfl, rfl⟩ | exact sameFlags_insertRunes _ _) | (injection h))) | (first | (injection h with h; subst h; first | exact ⟨rfl, rfl, rfl, rfl⟩ | exact sameFlags_insertRunes _ _) | (injection h))
  refine ite_some_elim _ _ _ _ h (fun h => ?_) (fun h => ?_)
  · try dsimp only at h
    first | (split_ifs at h <;> (first | (injection h with h; subst h; first | exact ⟨rfl, rfl, rfl, rfl⟩ | exact sameFlags_insertRunes _ _) | (injection h))) | (first | (injection h with h; subst h; first | exact ⟨rfl, rfl, rfl, rfl⟩ | exact sameFlags_insertRunes _ _) | (injection h))
  refine ite_some_elim _ _ _ _ h (fun h => ?_) (fun h => ?_)
  · try dsimp only at h
    first | (split_ifs at h <;> (first | (injection h with h; subst h; first | exact ⟨rfl, rfl, rfl, rfl⟩ | exact sameFlags_insertRunes _ _) | (injection h))) | (first | (injection h with h; subst h; first | exact ⟨rfl, rfl, rfl, rfl⟩ | exact sameFlags_insertRunes _ _) | (injection h))
  try dsimp only at h
  first | (injection h with h; subst h; first | exact ⟨rfl, rfl, rfl, rfl⟩ | exact sameFlags_insertRunes _ _) | (injection h)

theorem sameFlags_acceptSuggestion (m m1 : textinput.Model) (msg : Msg)
    (h : textinput.acceptSuggestion m msg = some m1) : sameFlags m m1 := by
  unfold textinput.acceptSuggestion at h
  cases msg with
  | KeyMsg k =>
    simp only at h
    split_ifs at h
    · cases hi : textinput.index m.matchedSuggestions m.currentSuggestionIndex with
      | none => rw [hi] at h; simp at h
      | some t =>
        rw [hi] at h
        simp only at h
        split_ifs at h
        injection h with h
        subst h
        exact ⟨rfl, rfl, rfl, rfl⟩
    · injection h with h
      subst h
      exact sameFlags_refl m
  | ErrorOccuredMsg e => injection h with h; subst h; exact sameFlags_refl m
  | pasteMsg t => injection h with h; subst h; exact sameFlags_refl m
  | pasteErrMsg => injection h with h; subst h; exact sameFlags_refl m
  | other t c => injection h with h; subst h; exact sameFlags_refl m

/-- With no match held, the key that accepts a suggestion does nothing. -/
theorem acceptSuggestion_no_match (m : textinput.Model) (msg : Msg)
    (h : m.matchedSuggestions = []) : textinput.acceptSuggestion m msg = some m := by
  unfold textinput.acceptSuggestion
  cases msg <;> simp [textinput.canAcceptSuggestion, h]

theorem updateSuggestions_off (L : Lib) (m : textinput.Model)
    (h : m.ShowSuggestions = false) : textinput.updateSuggestions L m = m := by
  simp [textinput.updateSuggestions, h]

/-- The method `Update` of the text input never assigns the focus, the
suggestion flag or the suggestions, and with suggestions off it leaves the
matches as well. -/
theorem textinput_Update_flags (L : Lib) (m m1 : textinput.Model) (msg : Msg)
    (cmd : List TextCmd) (h : textinput.Update L m msg = some (m1, cmd)) :
    m1.focus = m.focus ∧ m1.ShowSuggestions = m.ShowSuggestions ∧
    m1.suggestions = m.suggestions ∧
    (m.ShowSuggestions = false → m1.matchedSuggestions = m.matchedSuggestions) := by
  have weaken : ∀ x : textinput.Model, sameFlags m x →
      x.focus = m.focus ∧ x.ShowSuggestions = m.ShowSuggestions ∧
      x.suggestions = m.suggestions ∧
      (m.ShowSuggestions = false → x.matchedSuggestions = m.matchedSuggestions) :=
    fun x hx => ⟨hx.1, hx.2.1, hx.2.2.1, fun _ => hx.2.2.2⟩
  unfold textinput.Update at h
  split_ifs at h with hfoc
  · simp only [Option.some.injEq, Prod.mk.injEq] at h
    rw [← h.1]
    exact weaken m (sameFlags_refl m)
  · cases ha : textinput.acceptSuggestion m msg with
    | none => rw [ha] at h; simp at h
    | some m0 =>
      rw [ha] at h
      have h0 := sameFlags_acceptSuggestion m m0 msg ha
      cases msg with
      | KeyMsg k =>
        simp only at h
        cases hk : textinput.handleKey L m0 k with
        | none =>
          rw [hk] at h
          simp only [Option.some.injEq, Prod.mk.injEq] at h
          rw [← h.1]
          exact weaken m0 h0
        | some m2 =>
          rw [hk] at h
          simp only [Option.some.injEq, Prod.mk.injEq] at h
          have h2 := sameFlags_trans m m0 m2 h0 (sameFlags_handleKey L m0 m2 k hk)
          obtain ⟨_, _, f3, _, f5, f6⟩ := updateSuggestions_fields L m2
          rw [← h.1]
          refine ⟨f3.trans h2.1, f5.trans h2.2.1, f6.trans h2.2.2.1, ?_⟩
          intro hoff
          rw [updateSuggestions_off L m2 (h2.2.1.trans hoff)]
          exact h2.2.2.2
      | pasteMsg t =>
        simp only [Option.some.injEq, Prod.mk.injEq] at h
        rw [← h.1]
        exact weaken _ (sameFlags_trans m m0 _ h0 (sameFlags_insertRunes m0 t))
      | ErrorOccuredMsg e =>
        simp only [Option.some.injEq, Prod.mk.injEq] at h
        rw [← h.1]
        exact weaken m0 h0
      | pasteErrMsg =>
        simp only [Option.some.injEq, Prod.mk.injEq] at h
        rw [← h.1]
        exact weaken m0 h0
      | other t c =>
        simp only [Option.some.injEq, Prod.mk.injEq] at h
        rw [← h.1]
        exact weaken m0 h0

/-! ## The invariant of the phase flags -/

/-- One `Update` of the pill input that returns is the `Update` of the text
input on the same message, or the Tab transition, or the Backspace
transition. -/
theorem Update_shape (L : Lib) (m m1 : PillInputModel) (msg : Msg) (cmd : List TextCmd)
    (h : PillInputModel.Update L m msg = some (m1, cmd)) :
    (∃ ti, textinput.Update L m.textInput msg = some (ti, cmd) ∧
      m1 = { m with textInput := ti }) ∨
    (m.textInput.ShowSuggestions = true ∧ m1.isPillVisible = true ∧
      m1.textInput.ShowSuggestions = false ∧ m1.textInput.suggestions = [] ∧
      m1.textInput.matchedSuggestions = [] ∧ m1.textInput.focus = m.textInput.focus) ∨
    (m1.isPillVisible = false ∧ m1.filterField = [] ∧
      m1.textInput.ShowSuggestions = true ∧ m1.textInput.focus = m.textInput.focus) := by
  have rest : ∀ r : Option (textinput.Model × List TextCmd),
      r = textinput.Update L m.textInput msg →
      (match r with
        | none => none
        | some (ti, cmd) => some ({ m with textInput := ti }, cmd)) = some (m1, cmd) →
      ∃ ti, textinput.Update L m.textInput msg = some (ti, cmd) ∧
        m1 = { m with textInput := ti } := by
    intro r hr hm
    cases r with
    | none => simp at hm
    | some x =>
      obtain ⟨ti, c⟩ := x
      simp only [Option.some.injEq, Prod.mk.injEq] at hm
      obtain ⟨hm1, hc⟩ := hm
      subst hc
      exact ⟨ti, hr.symm, hm1.symm⟩
  unfold PillInputModel.Update at h
  cases msg with
  | KeyMsg k =>
    simp only at h
    cases hk : k.type with
    | KeyRunes => rw [hk] at h; exact Or.inl (rest _ rfl h)
    | KeyOther n => rw [hk] at h; exact Or.inl (rest _ rfl h)
    | KeyTab =>
      rw [hk] at h
      simp only at h
      split_ifs at h with hg
      · cases hc : textinput.CurrentSuggestion m.textInput with
        | none => rw [hc] at h; simp at h
        | some cur =>
          rw [hc] at h
          simp only [Option.some.injEq, Prod.mk.injEq] at h
          obtain ⟨hm, _⟩ := h
          subst hm
          simp only [Bool.and_eq_true] at hg
          refine Or.inr (Or.inl ⟨hg.1, rfl, rfl, ?_, ?_, ?_⟩)
          · simp [textinput.SetSuggestions, textinput.updateSuggestions, textinput.SetValue,
              textinput.setValueInternal, textinput.Reset, textinput.SetCursor, hg.1]
          · simp [textinput.SetSuggestions, textinput.updateSuggestions, textinput.SetValue,
              textinput.setValueInternal, textinput.Reset, textinput.SetCursor, hg.1,
              Sanitize_nil]
          · simp [textinput.SetSuggestions, textinput.updateSuggestions, textinput.SetValue,
              textinput.setValueInternal, textinput.Reset, textinput.SetCursor, hg.1,
              Sanitize_nil]
      · exact Or.inl (rest _ rfl h)
    | KeyBackspace =>
      rw [hk] at h
      simp only at h
      split_ifs at h with hg
      · simp only [Option.some.injEq, Prod.mk.injEq] at h
        obtain ⟨hm, _⟩ := h
        subst hm
        refine Or.inr (Or.inr ⟨rfl, rfl, ?_, ?_⟩)
        · simp only [textinput.SetSuggestions]
          rw [(updateSuggestions_fields L _).2.2.2.2.1]
        · simp only [textinput.SetSuggestions]
          rw [(updateSuggestions_fields L _).2.2.1]
          have hf := sameFlags_setValueInternal (textinput.Reset m.textInput)
            (textinput.Sanitize m.filterField)
          exact hf.1
      · exact Or.inl (rest _ rfl h)
  | ErrorOccuredMsg e => exact Or.inl (rest _ rfl h)
  | pasteMsg t => exact Or.inl (rest _ rfl h)
  | pasteErrMsg => exact Or.inl (rest _ rfl h)
  | other t c => exact Or.inl (rest _ rfl h)

/-- One `Update` keeps the invariant of the phase flags. -/
theorem Update_phaseInv (L : Lib) (m m1 : PillInputModel) (msg : Msg) (cmd : List TextCmd)
    (hi : phaseInv m) (h : PillInputModel.Update L m msg = some (m1, cmd)) :
    phaseInv m1 := by
  obtain ⟨hf, hs, hp⟩ := hi
  rcases Update_shape L m m1 msg cmd h with ⟨ti, ht, hm⟩ | ⟨_, h2, h3, h4, h5, h6⟩ |
      ⟨h2, _, h4, h5⟩
  · obtain ⟨g1, g2, g3, g4⟩ := textinput_Update_flags L m.textInput ti msg cmd ht
    subst hm
    refine ⟨g1.trans hf, g2.trans hs, ?_⟩
    intro hv
    have hv1 : m.isPillVisible = true := hv
    have hoff : m.textInput.ShowSuggestions = false := by rw [hs, hv1]; rfl
    exact ⟨g3.trans (hp hv1).1, (g4 hoff).trans (hp hv1).2⟩
  · exact ⟨h6.trans hf, by rw [h3, h2]; rfl, fun _ => ⟨h4, h5⟩⟩
  · refine ⟨h5.trans hf, by rw [h4, h2]; rfl, ?_⟩
    intro hv
    rw [h2] at hv
    simp at hv

theorem NewPillInputModel_phaseInv (L : Lib) (S : List Str) :
    phaseInv (NewPillInputModel L S) := by
  rw [NewPillInputModel_eq]
  refine ⟨rfl, rfl, ?_⟩
  intro h
  simp [fieldState] at h

theorem run_phaseInv_from (L : Lib) (msgs : List Msg) (m0 m : PillInputModel)
    (hi : phaseInv m0) (h : PillInputModel.run L m0 msgs = some m) : phaseInv m := by
  induction msgs generalizing m0 with
  | nil =>
    simp only [PillInputModel.run, Option.some.injEq] at h
    rw [← h]
    exact hi
  | cons msg rest ih =>
    simp only [PillInputModel.run] at h
    cases hu : PillInputModel.Update L m0 msg with
    | none => rw [hu] at h; simp at h
    | some x =>
      obtain ⟨m1, c⟩ := x
      rw [hu] at h
      exact ih m1 (Update_phaseInv L m0 m1 msg c hi hu) h

/-- Every model reached from `NewPillInputModel` satisfies the invariant of
the phase flags. -/
theorem run_phaseInv (L : Lib) (S : List Str) (msgs : List Msg) (m : PillInputModel)
    (h : PillInputModel.run L (NewPillInputModel L S) msgs = some m) : phaseInv m :=
  run_phaseInv_from L msgs _ m (NewPillInputModel_phaseInv L S) h

/-! ## The value-entry phase -/

theorem setValueInternal_value (m : textinput.Model) (r : Str) :
    (textinput.setValueInternal m r).value = r := by
  unfold textinput.setValueInternal
  simp only
  split_ifs <;> rfl

theorem insertRunes_value (m : textinput.Model) (v : Str) :
    (textinput.insertRunesFromUserInput m v).value
      = m.value.take m.pos ++ textinput.Sanitize v ++ m.value.drop m.pos := by
  unfold textinput.insertRunesFromUserInput
  exact setValueInternal_value _ _

/-- With no match held, `Update` of the text input returns. -/
theorem textinput_Update_some (L : Lib) (m : textinput.Model) (msg : Msg)
    (h : m.matchedSuggestions = []) :
    ∃ m1 cmd, textinput.Update L m msg = some (m1, cmd) := by
  unfold textinput.Update
  rw [acceptSuggestion_no_match m msg h]
  split_ifs
  · exact ⟨_, _, rfl⟩
  · cases msg with
    | KeyMsg k =>
      simp only
      cases textinput.handleKey L m k with
      | none => exact ⟨_, _, rfl⟩
      | some m2 => exact ⟨_, _, rfl⟩
    | ErrorOccuredMsg e => exact ⟨_, _, rfl⟩
    | pasteMsg t => exact ⟨_, _, rfl⟩
    | pasteErrMsg => exact ⟨_, _, rfl⟩
    | other t c => exact ⟨_, _, rfl⟩

/-- The buffer after one typed printable character: the character goes in at
the cursor. -/
theorem textinput_Update_rune_value (L : Lib) (m m1 : textinput.Model) (c : Char)
    (cmd : List TextCmd) (hc : printable c) (hf : m.focus = true)
    (h : textinput.Update L m (runeKey c) = some (m1, cmd)) :
    m1.value = m.value.take m.pos ++ [c] ++ m.value.drop m.pos := by
  unfold textinput.Update at h
  rw [acceptSuggestion_rune] at h
  simp only [hf, runeKey, handleKey_rune] at h
  simp only [Bool.not_true, Bool.false_eq_true, if_false, Option.some.injEq,
    Prod.mk.injEq] at h
  rw [← h.1, (updateSuggestions_fields L _).1, insertRunes_value,
    Sanitize_cons_printable c [] hc, Sanitize_nil]

/-- The buffer after Backspace, with no match held: the character before the
cursor goes, none when the cursor is at the start. -/
theorem textinput_Update_backspace_value (L : Lib) (m m1 : textinput.Model)
    (cmd : List TextCmd) (hf : m.focus = true) (hm : m.matchedSuggestions = [])
    (h : textinput.Update L m backspaceKey = some (m1, cmd)) :
    m1.value = m.value.take (m.pos - 1) ++ m.value.drop m.pos := by
  have h2 : Matches { type := KeyType.KeyBackspace, Runes := [], Alt := false, Paste := false }
      textinput.DefaultKeyMap.DeleteWordBackward = false := by decide
  have h3 : Matches { type := KeyType.KeyBackspace, Runes := [], Alt := false, Paste := false }
      textinput.DefaultKeyMap.DeleteCharacterBackward = true := by decide
  unfold textinput.Update at h
  rw [acceptSuggestion_no_match m backspaceKey hm] at h
  simp only [hf, backspaceKey, textinput.handleKey, h2, h3] at h
  simp only [Bool.not_true, Bool.false_eq_true, if_false, if_true] at h
  by_cases hlen : m.value.length > 0
  · simp only [hlen, if_true] at h
    by_cases hpos : m.pos > 0
    · simp only [hpos, if_true, Option.some.injEq, Prod.mk.injEq] at h
      rw [← h.1, (updateSuggestions_fields L _).1]
      rfl
    · simp only [hpos, if_false, Option.some.injEq, Prod.mk.injEq] at h
      rw [← h.1, (updateSuggestions_fields L _).1]
  · simp only [hlen, if_false, Option.some.injEq, Prod.mk.injEq] at h
    rw [← h.1, (updateSuggestions_fields L _).1]
    have : m.value = [] := by
      cases hv : m.value with
      | nil => rfl
      | cons a t => rw [hv] at hlen; simp at hlen
    simp [this]

/-- In the value-entry phase every key message other than a Backspace on an
empty buffer goes to the text input and to nothing else. -/
theorem Update_visible_key (L : Lib) (m : PillInputModel) (k : Key)
    (hi : phaseInv m) (hv : m.isPillVisible = true)
    (hk : ¬ (k.type = KeyType.KeyBackspace ∧ textinput.Value m.textInput = [])) :
    PillInputModel.Update L m (Msg.KeyMsg k)
      = (match textinput.Update L m.textInput (Msg.KeyMsg k) with
         | none => none
         | some (ti, cmd) => some ({ m with textInput := ti }, cmd)) := by
  have hoff : m.textInput.ShowSuggestions = false := by rw [hi.2.1, hv]; rfl
  unfold PillInputModel.Update
  simp only
  cases hty : k.type with
  | KeyRunes => rfl
  | KeyOther n => rfl
  | KeyTab => simp [hoff]
  | KeyBackspace =>
    have hne : ¬ (textinput.Value m.textInput = []) := fun he => hk ⟨hty, he⟩
    simp [hne]

/-! ## Further claims on the pill input -/

/-- Claim C11, as stated, fails: Tab on the fresh model over level, message
does not select level; `Value()` is the pair of two empty strings. -/
theorem C11_counterexample :
    ["level".toList, "message".toList].Nodup ∧
    (PillInputModel.run asciiLib
        (NewPillInputModel asciiLib ["level".toList, "message".toList]) [tabKey]).map
        PillInputModel.Value
      = some ([], []) := by
  decide

/-- Claim C11, amended: for every list `S` whose first entry starts with a
printable character `c`, the fresh `NewPillInputModel S` holds all of `S` as
the suggestions of its text input but matches none of them, its current
suggestion being the empty string; once `c` is typed, Tab selects the first
entry of `S`: `Value()` is `(S[0], "")` with the pill visible. -/
theorem C11_tab_after_first_character (L : Lib) (c : Char) (t : Str) (rest : List Str)
    (hc : printable c) :
    textinput.AvailableSuggestions (NewPillInputModel L ((c :: t) :: rest)).textInput
      = (c :: t) :: rest ∧
    textinput.MatchedSuggestions (NewPillInputModel L ((c :: t) :: rest)).textInput = [] ∧
    textinput.CurrentSuggestion (NewPillInputModel L ((c :: t) :: rest)).textInput
      = some [] ∧
    ∃ m0 m : PillInputModel,
      PillInputModel.run L (NewPillInputModel L ((c :: t) :: rest)) (typed [c]) = some m0 ∧
      PillInputModel.Update L m0 tabKey = some (m, []) ∧
      m.Value = (c :: t, []) ∧
      m.isPillVisible = true := by
  have hsel : selection L ((c :: t) :: rest) [c] = c :: t := by
    apply selection_eq_of_find
    · simp
    · simp [List.find?, List.isPrefixOf]
  refine ⟨?_, ?_, ?_, fieldState L ((c :: t) :: rest) [c],
    valueState ((c :: t) :: rest) (selection L ((c :: t) :: rest) [c]) [], ?_, ?_, ?_, rfl⟩
  · rw [NewPillInputModel_eq]; rfl
  · rw [NewPillInputModel_eq]; rfl
  · rw [NewPillInputModel_eq]; rfl
  · rw [NewPillInputModel_eq]
    exact run_fieldState_typed L _ [c] [] (fun d hd => by
      rw [List.mem_singleton] at hd
      rw [hd]
      exact hc)
  · exact Update_fieldState_tab L _ [c] (by simp)
  · rw [hsel]
    rfl

/-- Claim C11, amended, over level, message: after the key l, Tab selects
level. -/
theorem C11_tab_after_first_character_witness :
    ∃ m0 m : PillInputModel,
      PillInputModel.run asciiLib
        (NewPillInputModel asciiLib ["level".toList, "message".toList]) (typed ['l'])
        = some m0 ∧
      PillInputModel.Update asciiLib m0 tabKey = some (m, []) ∧
      m.Value = ("level".toList, []) ∧
      m.isPillVisible = true :=
  (C11_tab_after_first_character asciiLib 'l' "evel".toList ["message".toList]
    (by decide)).2.2.2

/-- Claim C15: for every list `S` and every sequence of messages fed to
`Update` from `NewPillInputModel S`, the stored source of the model reached
is `S`; and when the pill is visible over an empty buffer, Backspace sets
the suggestions of the text input from it, back to `S`. -/
theorem C15_source_kept (L : Lib) (S : List Str) (msgs : List Msg) (m : PillInputModel)
    (h : PillInputModel.run L (NewPillInputModel L S) msgs = some m) :
    m.suggestions = S ∧
    (m.isPillVisible = true → textinput.Value m.textInput = [] →
      ∃ m1 : PillInputModel,
        PillInputModel.Update L m backspaceKey = some (m1, []) ∧
        textinput.AvailableSuggestions m1.textInput = S ∧
        m1.suggestions = S) := by
  have hS := (run_invariant L S msgs m h).1
  refine ⟨hS, ?_⟩
  intro hv he
  obtain ⟨m1, h1, _, _, _, _, _, _, h8⟩ := Update_backspace_empty_spec L m hv he
  refine ⟨m1, h1, h8 S msgs h, ?_⟩
  exact ((Update_cases L m m1 backspaceKey [] h1).1).trans hS

/-- Claim C15 after l and Tab over level, message: the text input holds no
suggestion, the stored source is still level, message. -/
theorem C15_source_kept_witness :
    (valueState ["level".toList, "message".toList] "level".toList []).suggestions
      = ["level".toList, "message".toList] ∧
    textinput.AvailableSuggestions
      (valueState ["level".toList, "message".toList] "level".toList []).textInput = [] :=
  ⟨(C15_source_kept asciiLib ["level".toList, "message".toList] (typed ['l'] ++ [tabKey])
      (valueState ["level".toList, "message".toList] "level".toList []) (by decide)).1,
    rfl⟩

/-- Claim C16: `Value()` returns the pair of the selected field and the
buffer of the text input, and nothing else (it is a function of the model,
which it does not change); for every string `w` of printable characters
typed into `NewPillInputModel S` without Tab, `Value()` is `("", w)`. -/
theorem C16_value_is_field_and_buffer (L : Lib) (S : List Str) (w : Str)
    (hw : ∀ c ∈ w, printable c) :
    (∀ m : PillInputModel, m.Value = (m.filterField, textinput.Value m.textInput)) ∧
    ∃ m : PillInputModel,
      PillInputModel.run L (NewPillInputModel L S) (typed w) = some m ∧
      m.Value = ([], w) ∧
      m.isPillVisible = false := by
  refine ⟨fun _ => rfl, fieldState L S w, ?_, rfl, rfl⟩
  rw [NewPillInputModel_eq, run_fieldState_typed L S w [] hw, List.nil_append]

/-- Claim C16 at the input of the test `TestPillInputModelUpdateTextInput`:
typing test over level, message gives the empty field and test. -/
theorem C16_value_is_field_and_buffer_witness :
    ∃ m : PillInputModel,
      PillInputModel.run asciiLib
        (NewPillInputModel asciiLib ["level".toList, "message".toList]) (typed "test".toList)
        = some m ∧
      m.Value = ([], "test".toList) ∧
      m.isPillVisible = false :=
  (C16_value_is_field_and_buffer asciiLib ["level".toList, "message".toList] "test".toList
    (by decide)).2

/-- Claim C18: in every model reached from `NewPillInputModel S` by a
sequence of messages, suggestions are on in the text input exactly when the
pill is hidden, and a visible pill goes with an empty suggestion list and
no matched suggestion. -/
theorem C18_flags_agree (L : Lib) (S : List Str) (msgs : List Msg) (m : PillInputModel)
    (h : PillInputModel.run L (NewPillInputModel L S) msgs = some m) :
    m.textInput.ShowSuggestions = !m.isPillVisible ∧
    (m.isPillVisible = true →
      textinput.AvailableSuggestions m.textInput = [] ∧
      textinput.MatchedSuggestions m.textInput = []) := by
  obtain ⟨_, h2, h3⟩ := run_phaseInv L S msgs m h
  exact ⟨h2, h3⟩

/-- Claim C18 on the run lev, Tab, err over level, message, timestamp: in
the value-entry phase suggestions are off and none is held. -/
theorem C18_flags_agree_witness :
    (valueState ["level".toList, "message".toList, "timestamp".toList]
        "level".toList "err".toList).textInput.ShowSuggestions
      = !(valueState ["level".toList, "message".toList, "timestamp".toList]
        "level".toList "err".toList).isPillVisible ∧
    textinput.AvailableSuggestions
      (valueState ["level".toList, "message".toList, "timestamp".toList]
        "level".toList "err".toList).textInput = [] :=
  ⟨(C18_flags_agree asciiLib ["level".toList, "message".toList, "timestamp".toList]
      (typed "lev".toList ++ [tabKey] ++ typed "err".toList)
      (valueState ["level".toList, "message".toList, "timestamp".toList]
        "level".toList "err".toList) (by decide)).1, rfl⟩

/-- Claim C12, as stated, fails: with level selected and ab typed, the key
Home puts the cursor at the start; Backspace on this non-empty buffer then
removes no character. -/
theorem C12_counterexample :
    (PillInputModel.run asciiLib (NewPillInputModel asciiLib ["level".toList])
        (typed ['l'] ++ [tabKey] ++ typed "ab".toList ++ [Msg.KeyMsg (namedKey "home")])).map
        (fun m => (m.isPillVisible, m.Value, m.textInput.pos))
      = some (true, ("level".toList, "ab".toList), 0) ∧
    (PillInputModel.run asciiLib (NewPillInputModel asciiLib ["level".toList])
        (typed ['l'] ++ [tabKey] ++ typed "ab".toList
          ++ [Msg.KeyMsg (namedKey "home"), backspaceKey])).map
        (fun m => (m.isPillVisible, m.Value))
      = some (true, ("level".toList, "ab".toList)) := by
  decide

/-- Claim C12, amended: for every model reached from `NewPillInputModel S` in
the value-entry phase and every key message other than a Backspace on an
empty buffer, `Update` returns a model with the pill visible, the same
selected field and stored source, and no suggestion held or matched; a typed
printable character goes into the term at the cursor and changes nothing
else of `Value()`; Backspace removes the character before the cursor, one
character when the cursor is not at the start of the buffer and none when it
is; and selecting a field with Tab and then typing `w` gives `Value()` equal
to the field and `w`. -/
theorem C12_value_phase_frame (L : Lib) (S : List Str) (msgs : List Msg)
    (m : PillInputModel) (k : Key)
    (hr : PillInputModel.run L (NewPillInputModel L S) msgs = some m)
    (hv : m.isPillVisible = true)
    (hk : ¬ (k.type = KeyType.KeyBackspace ∧ textinput.Value m.textInput = [])) :
    ∃ (m1 : PillInputModel) (cmd : List TextCmd),
      PillInputModel.Update L m (Msg.KeyMsg k) = some (m1, cmd) ∧
      m1.isPillVisible = true ∧
      m1.filterField = m.filterField ∧
      m1.suggestions = m.suggestions ∧
      textinput.AvailableSuggestions m1.textInput = [] ∧
      textinput.MatchedSuggestions m1.textInput = [] ∧
      (∀ c : Char, printable c → Msg.KeyMsg k = runeKey c →
        m1.Value = (m.filterField,
          m.textInput.value.take m.textInput.pos ++ [c]
            ++ m.textInput.value.drop m.textInput.pos)) ∧
      (Msg.KeyMsg k = backspaceKey →
        m1.Value = (m.filterField,
          m.textInput.value.take (m.textInput.pos - 1)
            ++ m.textInput.value.drop m.textInput.pos) ∧
        (0 < m.textInput.pos → m.textInput.pos ≤ m.textInput.value.length →
          m1.Value.2.length + 1 = m.textInput.value.length) ∧
        (m.textInput.pos = 0 → m1.Value.2 = m.textInput.value)) ∧
      (∀ q w : Str, S ≠ [] → (∀ c ∈ q, printable c) → (∀ c ∈ w, printable c) →
        ∃ m2 : PillInputModel,
          PillInputModel.run L (NewPillInputModel L S) (typed q ++ [tabKey] ++ typed w)
            = some m2 ∧
          m2.Value = (selection L S q, w) ∧
          m2.isPillVisible = true) := by
  have hi := run_phaseInv L S msgs m hr
  obtain ⟨hfoc, hshow, hvis⟩ := hi
  obtain ⟨hsug, hmat⟩ := hvis hv
  have hoff : m.textInput.ShowSuggestions = false := by rw [hshow, hv]; rfl
  obtain ⟨ti, cmd, ht⟩ := textinput_Update_some L m.textInput (Msg.KeyMsg k) hmat
  obtain ⟨g1, g2, g3, g4⟩ := textinput_Update_flags L m.textInput ti (Msg.KeyMsg k) cmd ht
  have hu : PillInputModel.Update L m (Msg.KeyMsg k)
      = some ({ m with textInput := ti }, cmd) := by
    rw [Update_visible_key L m k ⟨hfoc, hshow, hvis⟩ hv hk, ht]
  refine ⟨{ m with textInput := ti }, cmd, hu, hv, rfl, rfl, g3.trans hsug,
    (g4 hoff).trans hmat, ?_, ?_, ?_⟩
  · intro c hc hkc
    rw [hkc] at ht
    have := textinput_Update_rune_value L m.textInput ti c cmd hc hfoc ht
    simp only [PillInputModel.Value, textinput.Value, this]
  · intro hkb
    rw [hkb] at ht
    have hval := textinput_Update_backspace_value L m.textInput ti cmd hfoc hmat ht
    refine ⟨?_, ?_, ?_⟩
    · simp only [PillInputModel.Value, textinput.Value, hval]
    · intro h0 hle
      simp only [PillInputModel.Value, textinput.Value, hval, List.length_append,
        List.length_take, List.length_drop]
      omega
    · intro h0
      simp only [PillInputModel.Value, textinput.Value, hval, h0]
      simp
  · intro q w hS hq hw
    refine ⟨valueState S (selection L S q) w, ?_, rfl, rfl⟩
    rw [run_append, run_append, NewPillInputModel_eq, run_fieldState_typed L S q [] hq,
      List.nil_append]
    simp only [Option.some_bind, PillInputModel.run, Update_fieldState_tab L S q hS]
    have := run_valueState_typed L S (selection L S q) w [] hw
    simpa [selection] using this

/-- Claim C12, amended, on the test `pill_selected_with_value`: with level
selected and e typed, the key r gives the field level and the term er. -/
theorem C12_value_phase_frame_witness :
    ∃ (m1 : PillInputModel) (cmd : List TextCmd),
      PillInputModel.Update asciiLib (valueState ["level".toList] "level".toList ['e'])
        (runeKey 'r') = some (m1, cmd) ∧
      m1.isPillVisible = true ∧
      m1.Value = ("level".toList, "er".toList) := by
  obtain ⟨m1, cmd, h1, h2, _, _, _, _, h7, _⟩ :=
    C12_value_phase_frame asciiLib ["level".toList] (typed ['l'] ++ [tabKey] ++ typed ['e'])
      (valueState ["level".toList] "level".toList ['e'])
      { type := KeyType.KeyRunes, Runes := ['r'], Alt := false, Paste := false }
      (by decide) rfl (by decide)
  exact ⟨m1, cmd, h1, h2, h7 'r' (by decide) rfl⟩

/-! ## Keys that are plain text for the text input -/

/-- A key bound to none of the editing bindings reaches the default case of
the key switch: its runes are inserted. -/
theorem handleKey_default (L : Lib) (m : textinput.Model) (k : Key)
    (h : ∀ b ∈ [textinput.DefaultKeyMap.DeleteWordBackward,
        textinput.DefaultKeyMap.DeleteCharacterBackward,
        textinput.DefaultKeyMap.WordBackward, textinput.DefaultKeyMap.CharacterBackward,
        textinput.DefaultKeyMap.WordForward, textinput.DefaultKeyMap.CharacterForward,
        textinput.DefaultKeyMap.LineStart, textinput.DefaultKeyMap.DeleteCharacterForward,
        textinput.DefaultKeyMap.LineEnd, textinput.DefaultKeyMap.DeleteAfterCursor,
        textinput.DefaultKeyMap.DeleteBeforeCursor, textinput.DefaultKeyMap.Paste,
        textinput.DefaultKeyMap.DeleteWordForward, textinput.DefaultKeyMap.NextSuggestion,
        textinput.DefaultKeyMap.PrevSuggestion], Matches k b = false) :
    textinput.handleKey L m k = some (textinput.insertRunesFromUserInput m k.Runes) := by
  unfold textinput.handleKey
  simp only [h textinput.DefaultKeyMap.DeleteWordBackward (by simp),
    h textinput.DefaultKeyMap.DeleteCharacterBackward (by simp),
    h textinput.DefaultKeyMap.WordBackward (by simp),
    h textinput.DefaultKeyMap.CharacterBackward (by simp),
    h textinput.DefaultKeyMap.WordForward (by simp),
    h textinput.DefaultKeyMap.CharacterForward (by simp),
    h textinput.DefaultKeyMap.LineStart (by simp),
    h textinput.DefaultKeyMap.DeleteCharacterForward (by simp),
    h textinput.DefaultKeyMap.LineEnd (by simp),
    h textinput.DefaultKeyMap.DeleteAfterCursor (by simp),
    h textinput.DefaultKeyMap.DeleteBeforeCursor (by simp),
    h textinput.DefaultKeyMap.Paste (by simp),
    h textinput.DefaultKeyMap.DeleteWordForward (by simp),
    h textinput.DefaultKeyMap.NextSuggestion (by simp),
    h textinput.DefaultKeyMap.PrevSuggestion (by simp)]
  simp

/-- A key of runes q, with or without Alt, pasted or not, on a focused pill
input: `Update` returns, the character q goes into the buffer at the cursor,
the field and the phase stay. -/
theorem Update_q (L : Lib) (m : PillInputModel) (alt paste : Bool)
    (hf : m.textInput.focus = true) :
    ∃ (m1 : PillInputModel) (cmd : List TextCmd),
      PillInputModel.Update L m
        (Msg.KeyMsg { type := KeyType.KeyRunes, Runes := ['q'], Alt := alt, Paste := paste })
        = some (m1, cmd) ∧
      m1.Value = (m.filterField,
        m.textInput.value.take m.textInput.pos ++ ['q']
          ++ m.textInput.value.drop m.textInput.pos) ∧
      m1.isPillVisible = m.isPillVisible := by
  have hacc : Matches { type := KeyType.KeyRunes, Runes := ['q'], Alt := alt, Paste := paste }
      textinput.DefaultKeyMap.AcceptSuggestion = false := by
    cases alt <;> cases paste <;> decide
  have hkey := handleKey_default L m.textInput
    { type := KeyType.KeyRunes, Runes := ['q'], Alt := alt, Paste := paste }
    (by cases alt <;> cases paste <;> decide)
  have hsan : textinput.Sanitize ['q'] = ['q'] := by decide
  have ht : ∃ cmd, textinput.Update L m.textInput
      (Msg.KeyMsg { type := KeyType.KeyRunes, Runes := ['q'], Alt := alt, Paste := paste })
      = some (textinput.updateSuggestions L
          (textinput.insertRunesFromUserInput m.textInput ['q']), cmd) := by
    simp only [textinput.Update, textinput.acceptSuggestion, hacc, hf]
    simp only [Bool.not_true, Bool.false_eq_true, Bool.false_and, if_false]
    rw [hkey]
    exact ⟨_, rfl⟩
  obtain ⟨cmd, ht⟩ := ht
  refine ⟨{ m with textInput := (textinput.updateSuggestions L
      (textinput.insertRunesFromUserInput m.textInput ['q'])) }, cmd, ?_, ?_, rfl⟩
  · simp only [PillInputModel.Update, ht]
  · simp only [PillInputModel.Value, textinput.Value, (updateSuggestions_fields L _).1,
      insertRunes_value, hsan]

/-! ## Further claims on the filtering state -/

section app

variable {A Lv T F M C : Type}

/-- A key that `handleKeyMsg` does not take goes to the input and to nothing
else: the table stays. -/
theorem Update_key_falls_through (L : Lib) (E : App A Lv T F M C) (app : A)
    (s : StateFilteringModel Lv T) (k : Key)
    (h : StateFilteringModel.handleKeyMsg E (E.Update app (Msg.KeyMsg k)) s k = none) :
    StateFilteringModel.Update L E app s (Msg.KeyMsg k)
      = (match PillInputModel.Update L s.textInput (Msg.KeyMsg k) with
         | none => none
         | some (ti, cmd) =>
           some (E.Update app (Msg.KeyMsg k), Next.filtering { s with textInput := ti },
             cmd.map Cmd.input)) := by
  simp only [StateFilteringModel.Update, h, List.nil_append]

/-- A message that is neither a key nor an error signal goes to the table
and then to the input. -/
theorem Update_other_message (L : Lib) (E : App A Lv T F M C) (app : A)
    (s : StateFilteringModel Lv T) (msg : Msg)
    (hkey : ∀ k, msg ≠ Msg.KeyMsg k) (herr : ∀ e, msg ≠ Msg.ErrorOccuredMsg e) :
    StateFilteringModel.Update L E app s msg
      = (match PillInputModel.Update L s.textInput msg with
         | none => none
         | some (ti, cmd) =>
           some (E.Update app msg,
             Next.filtering { s with table := (E.tableUpdate s.table msg).1, textInput := ti },
             (E.tableUpdate s.table msg).2 ++ cmd.map Cmd.input)) := by
  cases msg with
  | KeyMsg k => exact absurd rfl (hkey k)
  | ErrorOccuredMsg e => exact absurd rfl (herr e)
  | pasteMsg t => rfl
  | pasteErrMsg => rfl
  | other t c => rfl

/-- A step that stays in the filtering state keeps the input or feeds the
message to it. -/
theorem Update_filtering_input (L : Lib) (E : App A Lv T F M C) (app app1 : A)
    (s s1 : StateFilteringModel Lv T) (msg : Msg) (cmd : List (Cmd C))
    (h : StateFilteringModel.Update L E app s msg = some (app1, Next.filtering s1, cmd)) :
    s1.textInput = s.textInput ∨
    ∃ c, PillInputModel.Update L s.textInput msg = some (s1.textInput, c) := by
  cases msg with
  | ErrorOccuredMsg e => simp [StateFilteringModel.Update] at h
  | KeyMsg k =>
    cases hk : StateFilteringModel.handleKeyMsg E (E.Update app (Msg.KeyMsg k)) s k with
    | none =>
      rw [Update_key_falls_through L E app s k hk] at h
      cases hu : PillInputModel.Update L s.textInput (Msg.KeyMsg k) with
      | none => rw [hu] at h; simp at h
      | some x =>
        obtain ⟨ti, c⟩ := x
        rw [hu] at h
        simp only [Option.some.injEq, Prod.mk.injEq, Next.filtering.injEq] at h
        rw [← h.2.1]
        exact Or.inr ⟨c, rfl⟩
    | some x =>
      obtain ⟨mdl, c⟩ := x
      simp only [StateFilteringModel.Update, hk, Option.some.injEq, Prod.mk.injEq] at h
      obtain ⟨_, hm, _⟩ := h
      subst hm
      unfold StateFilteringModel.handleKeyMsg at hk
      split_ifs at hk with h1 h2
      · simp at hk
      · unfold StateFilteringModel.handleEnterKeyClickedMsg at hk
        simp only [Option.some.injEq] at hk
        split_ifs at hk
        · simp only [Prod.mk.injEq, Next.filtering.injEq] at hk
          rw [← hk.1]
          exact Or.inl rfl
        · simp at hk
  | pasteMsg t =>
    rw [Update_other_message L E app s _ (by simp) (by simp)] at h
    cases hu : PillInputModel.Update L s.textInput (Msg.pasteMsg t) with
    | none => rw [hu] at h; simp at h
    | some x =>
      obtain ⟨ti, c⟩ := x
      rw [hu] at h
      simp only [Option.some.injEq, Prod.mk.injEq, Next.filtering.injEq] at h
      rw [← h.2.1]
      exact Or.inr ⟨c, rfl⟩
  | pasteErrMsg =>
    rw [Update_other_message L E app s _ (by simp) (by simp)] at h
    cases hu : PillInputModel.Update L s.textInput Msg.pasteErrMsg with
    | none => rw [hu] at h; simp at h
    | some x =>
      obtain ⟨ti, c⟩ := x
      rw [hu] at h
      simp only [Option.some.injEq, Prod.mk.injEq, Next.filtering.injEq] at h
      rw [← h.2.1]
      exact Or.inr ⟨c, rfl⟩
  | other t b =>
    rw [Update_other_message L E app s _ (by simp) (by simp)] at h
    cases hu : PillInputModel.Update L s.textInput (Msg.other t b) with
    | none => rw [hu] at h; simp at h
    | some x =>
      obtain ⟨ti, c⟩ := x
      rw [hu] at h
      simp only [Option.some.injEq, Prod.mk.injEq, Next.filtering.injEq] at h
      rw [← h.2.1]
      exact Or.inr ⟨c, rfl⟩

/-- Every run that stays in the filtering state keeps the invariant of the
phase flags of its input. -/
theorem runFiltering_phaseInv (L : Lib) (E : App A Lv T F M C) (msgs : List Msg)
    (app0 app : A) (s0 s : StateFilteringModel Lv T) (hi : phaseInv s0.textInput)
    (h : StateFilteringModel.runFiltering L E app0 s0 msgs = some (app, s)) :
    phaseInv s.textInput := by
  induction msgs generalizing app0 s0 with
  | nil =>
    simp only [StateFilteringModel.runFiltering, Option.some.injEq, Prod.mk.injEq] at h
    rw [← h.2]
    exact hi
  | cons msg rest ih =>
    simp only [StateFilteringModel.runFiltering] at h
    cases hu : StateFilteringModel.Update L E app0 s0 msg with
    | none => rw [hu] at h; simp at h
    | some x =>
      obtain ⟨app1, nx, c⟩ := x
      rw [hu] at h
      cases nx with
      | leave m => simp at h
      | filtering s1 =>
        simp only at h
        refine ih app1 s1 ?_ h
        rcases Update_filtering_input L E app0 app1 s0 s1 msg c hu with he | ⟨c1, hc1⟩
        · rw [he]; exact hi
        · exact Update_phaseInv L s0.textInput s1.textInput msg c1 hi hc1

/-- Claim C13: in every filtering state reached from `newStateFiltering`, a
key message whose runes are q is never taken as `Back`: `handleKeyMsg`
answers it as `Open` when it matches `Open` and not at all otherwise; when
it is a key of runes that does not match `Open`, `Update` stays in the
filtering state with the same table and previous state and the input has
the character q inserted at the cursor; and a key matching `Back` whose
runes are not q makes `Update` return `previousState.refresh()`, whether it
matches `Open` or not. -/
theorem C13_q_is_text (L : Lib) (E : App A Lv T F M C) (app0 app : A) (prev : Lv)
    (msgs : List Msg) (s : StateFilteringModel Lv T) (k : Key)
    (hrun : StateFilteringModel.runFiltering L E app0 (newStateFiltering L E app0 prev) msgs
      = some (app, s))
    (hq : k.Runes = "q".toList) :
    StateFilteringModel.handleKeyMsg E app s k
      = (if Matches k s.keys.Open then
          some (StateFilteringModel.handleEnterKeyClickedMsg E app s)
         else none) ∧
    (Matches k s.keys.Open = false → k.type = KeyType.KeyRunes →
      ∃ (s1 : StateFilteringModel Lv T) (cmd : List (Cmd C)),
        StateFilteringModel.Update L E app s (Msg.KeyMsg k)
          = some (E.Update app (Msg.KeyMsg k), Next.filtering s1, cmd) ∧
        s1.textInput.Value = (s.textInput.filterField,
          s.textInput.textInput.value.take s.textInput.textInput.pos ++ ['q']
            ++ s.textInput.textInput.value.drop s.textInput.textInput.pos) ∧
        s1.textInput.isPillVisible = s.textInput.isPillVisible ∧
        s1.previousState = s.previousState ∧
        s1.table = s.table) ∧
    (∀ k2 : Key, Matches k2 s.keys.Back = true → k2.Runes ≠ "q".toList →
      StateFilteringModel.Update L E app s (Msg.KeyMsg k2)
        = some (E.Update app (Msg.KeyMsg k2),
            Next.leave (E.refresh (E.Update app (Msg.KeyMsg k2)) s.previousState).1,
            (E.refresh (E.Update app (Msg.KeyMsg k2)) s.previousState).2)) := by
  have hkm : ∀ a : A, StateFilteringModel.handleKeyMsg E a s k
      = (if Matches k s.keys.Open then
          some (StateFilteringModel.handleEnterKeyClickedMsg E a s)
         else none) := by
    intro a
    simp [StateFilteringModel.handleKeyMsg, hq]
  refine ⟨hkm app, ?_, ?_⟩
  · intro hopen hty
    have hfoc : s.textInput.textInput.focus = true :=
      (runFiltering_phaseInv L E msgs app0 app _ s (NewPillInputModel_phaseInv L _) hrun).1
    have hnone : StateFilteringModel.handleKeyMsg E (E.Update app (Msg.KeyMsg k)) s k = none := by
      rw [hkm, hopen]
      rfl
    obtain ⟨ty, rs, alt, paste⟩ := k
    simp only at hq hty
    subst hty
    subst hq
    obtain ⟨m1, cmd, hu, hval, hvis⟩ := Update_q L s.textInput alt paste hfoc
    refine ⟨{ s with textInput := m1 }, cmd.map Cmd.input, ?_, hval, hvis, rfl, rfl⟩
    rw [Update_key_falls_through L E app s _ hnone]
    have hu2 : PillInputModel.Update L s.textInput
        (Msg.KeyMsg { type := KeyType.KeyRunes, Runes := "q".toList, Alt := alt, Paste := paste })
        = some (m1, cmd) := hu
    rw [hu2]
  · intro k2 hback hnq
    have hnq1 : ¬ (k2.Runes = ['q']) := hnq
    simp [StateFilteringModel.Update, StateFilteringModel.handleKeyMsg, hback, hnq1]

/-- Claim C13 with the bindings esc, q for `Back` and enter for `Open`: the
key q in the fresh filtering state stays there and puts q in the buffer. -/
theorem C13_q_is_text_witness :
    ∃ (s1 : StateFilteringModel (List Str) Nat)
      (cmd : List (Cmd Nat)),
      StateFilteringModel.Update asciiLib sampleApp 0
          (newStateFiltering asciiLib sampleApp 0 ["level".toList]) (runeKey 'q')
        = some (1, Next.filtering s1, cmd) ∧
      s1.textInput.Value = ([], ['q']) := by
  obtain ⟨s1, cmd, h1, h2, _⟩ :=
    (C13_q_is_text asciiLib sampleApp 0 0 ["level".toList] []
      (newStateFiltering asciiLib sampleApp 0 ["level".toList])
      { type := KeyType.KeyRunes, Runes := ['q'], Alt := false, Paste := false }
      rfl rfl).2.1 (by decide) rfl
  exact ⟨s1, cmd, h1, h2⟩

/-- Claim C14, as stated, fails: a typed character that falls through to the
input is not passed to the table (the table of `tickingApp`, which counts
the messages it gets, stays at 1), and a message that is not a key, here
the result of a paste, does update the input. -/
theorem C14_counterexample :
    (StateFilteringModel.Update asciiLib tickingApp 0
        (newStateFiltering asciiLib tickingApp 0 ["level".toList]) (runeKey 'x')).map
        (fun r => match r.2.1 with
          | Next.filtering s => some (s.table, s.textInput.Value)
          | Next.leave _ => none)
      = some (some (1, ([], ['x']))) ∧
    (tickingApp.tableUpdate 1 (runeKey 'x')).1 = 2 ∧
    (StateFilteringModel.Update asciiLib tickingApp 0
        (newStateFiltering asciiLib tickingApp 0 ["level".toList]) (Msg.pasteMsg ['y'])).map
        (fun r => match r.2.1 with
          | Next.filtering s => some (s.table, s.textInput.Value)
          | Next.leave _ => none)
      = some (some (2, ([], ['y']))) := by
  decide

/-- Claim C14, amended: a message that is neither an error signal nor a key
is passed to the table's `Update` and then to the input's `Update`, the
commands of the table first; a key message that `handleKeyMsg` does not
take is passed to the input's `Update` only, the table staying as it is;
the input's `Update` is called for every message that is not intercepted,
key or not. -/
theorem C14_dispatch (L : Lib) (E : App A Lv T F M C) (app : A)
    (s : StateFilteringModel Lv T) :
    (∀ msg : Msg, (∀ k, msg ≠ Msg.KeyMsg k) → (∀ e, msg ≠ Msg.ErrorOccuredMsg e) →
      StateFilteringModel.Update L E app s msg
        = (match PillInputModel.Update L s.textInput msg with
           | none => none
           | some (ti, cmd) =>
             some (E.Update app msg,
               Next.filtering
                 { s with table := (E.tableUpdate s.table msg).1, textInput := ti },
               (E.tableUpdate s.table msg).2 ++ cmd.map Cmd.input))) ∧
    (∀ k : Key,
      StateFilteringModel.handleKeyMsg E (E.Update app (Msg.KeyMsg k)) s k = none →
      StateFilteringModel.Update L E app s (Msg.KeyMsg k)
        = (match PillInputModel.Update L s.textInput (Msg.KeyMsg k) with
           | none => none
           | some (ti, cmd) =>
             some (E.Update app (Msg.KeyMsg k), Next.filtering { s with textInput := ti },
               cmd.map Cmd.input))) :=
  ⟨fun msg hk he => Update_other_message L E app s msg hk he,
    fun k hk => Update_key_falls_through L E app s k hk⟩

/-- Claim C14, amended, on a resize in the fresh filtering state over
`tickingApp`: the table gets the message and its command comes first. -/
theorem C14_dispatch_witness :
    StateFilteringModel.Update asciiLib tickingApp 0
        (newStateFiltering asciiLib tickingApp 0 ["level".toList]) (Msg.other 0 true)
      = (match PillInputModel.Update asciiLib
            (newStateFiltering asciiLib tickingApp 0 ["level".toList]).textInput
            (Msg.other 0 true) with
         | none => none
         | some (ti, cmd) =>
           some (1,
             Next.filtering
               { newStateFiltering asciiLib tickingApp 0 ["level".toList] with
                 table := 2, textInput := ti },
             [Cmd.ext 2] ++ cmd.map Cmd.input)) :=
  (C14_dispatch asciiLib tickingApp 0
    (newStateFiltering asciiLib tickingApp 0 ["level".toList])).1 (Msg.other 0 true)
    (by simp) (by simp)

/-- Claim C17: `PillInputModel.View` is the styled text of the field followed
by a colon when the pill is visible, and nothing of the field when it is
hidden, then the view of the text input, then a line break and the help
line; `StateFilteringModel.View` is the rendered table, a line break, and
the view of the input. -/
theorem C17_view_order (R : Rendering A T) (app : A) (s : StateFilteringModel Lv T)
    (m : PillInputModel) :
    (m.isPillVisible = true →
      PillInputModel.View R m
        = R.pillStyleRender (m.filterField ++ ":".toList) ++ R.textInputView m.textInput
          ++ [Char.ofNat 10] ++ R.helpView) ∧
    (m.isPillVisible = false →
      PillInputModel.View R m
        = R.textInputView m.textInput ++ [Char.ofNat 10] ++ R.helpView) ∧
    StateFilteringModel.View R app s
      = R.baseStyleRender app (R.tableView s.table) ++ [Char.ofNat 10]
        ++ PillInputModel.View R s.textInput := by
  refine ⟨?_, ?_, rfl⟩
  · intro h
    simp [PillInputModel.View, h]
  · intro h
    simp [PillInputModel.View, h]

/-- Claim C17 with level selected and err typed, over `sampleRendering`: the
pill, the buffer, a line break, the help line. -/
theorem C17_view_order_witness :
    PillInputModel.View sampleRendering (valueState ["level".toList] "level".toList "err".toList)
      = "[level:]> err".toList ++ [Char.ofNat 10] ++ "tab complete".toList :=
  ((C17_view_order sampleRendering 0
      (newStateFiltering asciiLib sampleApp 0 ["level".toList])
      (valueState ["level".toList] "level".toList "err".toList)).1 rfl).trans (by decide)

/-- Claim C19: in every model reached from `NewPillInputModel S` by a
sequence of messages, a hidden pill goes with an empty selected field, so
`Value()` reports no field in the field-selection phase and a commit made
there with a non-empty term builds the filtered state with the empty field. -/
theorem C19_hidden_pill_empty_field (L : Lib) (E : App A Lv T F M C) (app : A)
    (S : List Str) (msgs : List Msg) (s : StateFilteringModel Lv T)
    (h : PillInputModel.run L (NewPillInputModel L S) msgs = some s.textInput)
    (hv : s.textInput.isPillVisible = false) :
    s.textInput.filterField = [] ∧
    s.textInput.Value = ([], textinput.Value s.textInput.textInput) ∧
    (textinput.Value s.textInput.textInput ≠ [] →
      StateFilteringModel.handleEnterKeyClickedMsg E app s
        = (Next.leave (E.initializeModel (E.newStateFiltered app s.previousState
              (textinput.Value s.textInput.textInput) [])).1,
           (E.initializeModel (E.newStateFiltered app s.previousState
              (textinput.Value s.textInput.textInput) [])).2)) := by
  have hf := (run_invariant L S msgs s.textInput h).2 hv
  refine ⟨hf, ?_, ?_⟩
  · simp only [PillInputModel.Value, hf]
  · intro hne
    simp [StateFilteringModel.handleEnterKeyClickedMsg, PillInputModel.Value, hf, hne]

/-- Claim C19 after typing err over level, without Tab: Enter builds the
filtered state from the term err and the empty field. -/
theorem C19_hidden_pill_empty_field_witness :
    StateFilteringModel.handleEnterKeyClickedMsg sampleApp 0
        { newStateFiltering asciiLib sampleApp 0 ["level".toList] with
          textInput := fieldState asciiLib ["level".toList] "err".toList }
      = (Next.leave (some (["level".toList], "err".toList, [])), [Cmd.ext 1]) :=
  (C19_hidden_pill_empty_field asciiLib sampleApp 0 ["level".toList] (typed "err".toList)
    { newStateFiltering asciiLib sampleApp 0 ["level".toList] with
      textInput := fieldState asciiLib ["level".toList] "err".toList }
    (by decide) rfl).2.2 (by decide)

end app

end JLV
